import Mathlib

/-!
# Verification of the orgize headline-title parser and inline object scanner

Shallow embedding of `src/elements/title.rs` and `src/objects/mod.rs`.
Strings are modelled as `List Char`.  All decision points of the embedded
code compare ASCII characters, for which byte positions and char positions
in a UTF-8 string coincide (an ASCII byte never occurs inside the encoding
of a multi-byte char), so the char-level model is faithful to the byte-level
Rust code.

External collaborators that live outside `src/` (the planning sub-parser,
the drawer framing sub-parser, the per-construct inline sub-parsers, and
the `one_word` / `line` / `blank_lines_count` combinators) are either taken
as function parameters constrained only by their spec contracts, or modelled
from the spec where noted.
-/

namespace Orgize

/-- The set recognised by nom's `space1`: spaces and tabs. -/
def isSpaceTab (c : Char) : Bool := c = ' ' || c = '\t'

/-- Rust's `char::is_whitespace`: the Unicode `White_Space` property.
Used by `str::trim`, `str::trim_start` and (in our spec model) `one_word`. -/
def isRustWhitespace (c : Char) : Bool :=
  c = ' ' || c = '\t' || c = '\n' || c = '\r' || c = '\x0b' || c = '\x0c' ||
  c = '\u0085' || c = '\u00A0' || c = '\u1680' ||
  ('\u2000' ≤ c && c ≤ '\u200A') || c = '\u2028' || c = '\u2029' ||
  c = '\u202F' || c = '\u205F' || c = '\u3000'

/-- Rust's `char::is_ascii_uppercase`. -/
def isAsciiUppercase (c : Char) : Bool := 'A' ≤ c && c ≤ 'Z'

/-- nom's `space1`: one or more spaces/tabs; returns (consumed, remainder). -/
def space1 (input : List Char) : Option (List Char × List Char) :=
  if input.takeWhile isSpaceTab = [] then none
  else some (input.takeWhile isSpaceTab, input.dropWhile isSpaceTab)

/-- nom's `line_ending`: `"\n"` or `"\r\n"`. -/
def lineEnding (input : List Char) : Option (List Char × List Char) :=
  match input with
  | '\n' :: rest => some (['\n'], rest)
  | '\r' :: '\n' :: rest => some (['\r', '\n'], rest)
  | _ => none

/-- `white_spaces_or_eol` from title.rs: `alt((space1, line_ending))`. -/
def white_spaces_or_eol (input : List Char) : Option (List Char × List Char) :=
  match space1 input with
  | some r => some r
  | none => lineEnding input

/-- Modelled from the spec: the `one_word` combinator (from the excluded
`parse::combinators` module) consumes one whitespace-delimited,
non-whitespace "word" token; it fails on empty or whitespace-leading input. -/
def one_word (input : List Char) : Option (List Char × List Char) :=
  if input.takeWhile (fun c => !isRustWhitespace c) = [] then none
  else some (input.takeWhile (fun c => !isRustWhitespace c),
    input.dropWhile (fun c => !isRustWhitespace c))

/-- Modelled from the spec: the `line` combinator (from the excluded
`parse::combinators` module) consumes one physical line.  It returns the
content up to (and excluding) the first line terminator (`"\n"`, with an
immediately preceding `'\r'` also removed) and the remainder after it;
without a terminator the whole input is the line. -/
def lineSplit : List Char → List Char × List Char
  | [] => ([], [])
  | c :: rest =>
    if c = '\n' then ([], rest)
    else if c = '\r' then
      match rest with
      | '\n' :: rest2 => ([], rest2)
      | _ => ((lineSplit rest).1.cons c, (lineSplit rest).2)
    else ((lineSplit rest).1.cons c, (lineSplit rest).2)

/-- Rust `str::trim_start`. -/
def trimStart (l : List Char) : List Char := l.dropWhile isRustWhitespace

/-- Rust `str::trim_end`. -/
def trimEnd (l : List Char) : List Char := (l.reverse.dropWhile isRustWhitespace).reverse

/-- Rust `str::trim`. -/
def trim (l : List Char) : List Char := trimEnd (trimStart l)

/-- Rust `str::trim_end_matches('+')`: repeatedly removes a trailing `'+'`
until none is left. -/
def trimEndMatchesPlus (l : List Char) : List Char :=
  (l.reverse.dropWhile (fun c => c = '+')).reverse

/-- Modelled from the spec: a blank line (for the `blank_lines_count`
combinator of the excluded `parse::combinators` module): horizontal
whitespace followed by a line terminator; consumes it. -/
def blankLine (input : List Char) : Option (List Char) :=
  match input.dropWhile isSpaceTab with
  | '\n' :: r => some r
  | '\r' :: '\n' :: r => some r
  | _ => none

/-- Modelled from the spec: count and skip consecutive blank lines
(`blank_lines_count` from the excluded `parse::combinators` module).
Each blank line consumes at least one character, so fuel `input.length`
always suffices. -/
def blankLinesGo : Nat → List Char → Nat × List Char
  | 0, input => (0, input)
  | fuel + 1, input =>
    match blankLine input with
    | some rest =>
      let p := blankLinesGo fuel rest
      (p.1 + 1, p.2)
    | none => (0, input)

/-- Modelled from the spec: `blank_lines_count`. -/
def blank_lines_count (input : List Char) : Nat × List Char :=
  blankLinesGo input.length input

/-- `memrchr2(b' ', b'\t', ..)`: index of the last space-or-tab. -/
def memrchr2SpaceTab : List Char → Option Nat
  | [] => none
  | c :: rest =>
    match memrchr2SpaceTab rest with
    | some i => some (i + 1)
    | none => if isSpaceTab c then some 0 else none

/-- Rust `str::split(':')`: splits at every `':'`, keeping empty segments. -/
def splitOnColon : List Char → List (List Char)
  | [] => [[]]
  | c :: rest =>
    if c = ':' then [] :: splitOnColon rest
    else
      match splitOnColon rest with
      | s :: ss => (c :: s) :: ss
      | [] => [[c]]

/-- `ParseConfig`: the two ordered todo-keyword lists ("open", "closed"),
used only for membership tests (`config.todo_keywords.0` / `.1`). -/
structure ParseConfig where
  todo_keywords : List (List Char) × List (List Char)

/-- The `Title` record of title.rs.  `planning` is the external planning
record, opaque here (`Option Unit`); `properties` is the `PropertiesMap`,
i.e. its ordered `pairs` vector. -/
structure Title where
  level : Nat
  priority : Option Char
  tags : List (List Char)
  keyword : Option (List Char)
  raw : List Char
  planning : Option Unit
  properties : List (List Char × List Char)
  post_blank : Nat
deriving DecidableEq

/-- `is_tag_line` from title.rs.  `isAlnum` abstracts Rust's Unicode
`char::is_alphanumeric` (an external predicate). -/
def is_tag_line (isAlnum : Char → Bool) (input : List Char) : Bool :=
  decide (2 < input.length) && input.head? == some ':' && input.getLast? == some ':' &&
    input.all (fun ch =>
      isAlnum ch || ch = '_' || ch = '@' || ch = '#' || ch = '%' || ch = ':')

/-- Step 2 of `parse_title`: `opt(preceded(space1, verify(one_word, …)))` —
the keyword attempt (`None` means the combinator backtracked). -/
def keywordStep (config : ParseConfig) (input : List Char) :
    Option (List Char × List Char) :=
  match space1 input with
  | none => none
  | some (_, in1) =>
    match one_word in1 with
    | none => none
    | some (w, rest) =>
      if config.todo_keywords.1.contains w || config.todo_keywords.2.contains w then
        some (w, rest)
      else none

/-- Step 3 of `parse_title`:
`opt(delimited(space1, delimited(tag("[#"), verify(anychar, is_ascii_uppercase), tag("]")), white_spaces_or_eol))` —
the priority-cookie attempt. -/
def priorityStep (input : List Char) : Option (Char × List Char) :=
  match space1 input with
  | none => none
  | some (_, in1) =>
    match in1 with
    | c1 :: c2 :: c :: rest =>
      if c1 = '[' ∧ c2 = '#' then
        if isAsciiUppercase c then
          match rest with
          | c4 :: rest2 =>
            if c4 = ']' then
              match white_spaces_or_eol rest2 with
              | some (_, rest3) => some (c, rest3)
              | none => none
            else none
          | [] => none
        else none
      else none
    | _ => none

/-- The keyword attempt together with the `opt` backtracking: the parsed
keyword (if any) and the remaining input. -/
def keywordResult (config : ParseConfig) (in1 : List Char) :
    Option (List Char) × List Char :=
  match keywordStep config in1 with
  | some (w, r) => (some w, r)
  | none => (none, in1)

/-- The priority attempt together with the `opt` backtracking. -/
def priorityResult (in2 : List Char) : Option Char × List Char :=
  match priorityStep in2 with
  | some (c, r) => (some c, r)
  | none => (none, in2)

/-- The tag-extraction split of `parse_title`:
`memrchr2(b' ', b'\t', tail).map(|i| (tail[0..i].trim(), &tail[i+1..])).filter(|(_, x)| is_tag_line(x)).unwrap_or((tail, ""))`.
Returns `(raw, tag group text)`. -/
def rawTagsSplit (isAlnum : Char → Bool) (tail : List Char) :
    List Char × List Char :=
  match memrchr2SpaceTab tail with
  | some i =>
    if is_tag_line isAlnum (tail.drop (i + 1)) then
      (trim (tail.take i), tail.drop (i + 1))
    else (tail, [])
  | none => (tail, [])

/-- Input after the leading stars (`take_while(|c| c == '*')`). -/
def titleIn1 (input : List Char) : List Char :=
  input.dropWhile (fun c => c = '*')

/-- Input after the keyword attempt. -/
def titleIn2 (config : ParseConfig) (input : List Char) : List Char :=
  (keywordResult config (titleIn1 input)).2

/-- Input after the priority attempt. -/
def titleIn3 (config : ParseConfig) (input : List Char) : List Char :=
  (priorityResult (titleIn2 config input)).2

/-- The headline tail: the rest of the physical line, whitespace-trimmed. -/
def titleTail (config : ParseConfig) (input : List Char) : List Char :=
  trim (lineSplit (titleIn3 config input)).1

/-- Input after the physical line holding the title has been consumed. -/
def titleIn4 (config : ParseConfig) (input : List Char) : List Char :=
  (lineSplit (titleIn3 config input)).2

/-- Input after the (delegated) planning attempt; `pl` is the external
planning sub-parser, returning the remainder on success. -/
def titleIn5 (pl : List Char → Option (List Char)) (config : ParseConfig)
    (input : List Char) : List Char :=
  match pl (titleIn4 config input) with
  | some r => r
  | none => titleIn4 config input

/-- nom's `take_until(":")`: the prefix before the first `':'` (not
consuming it); fails when no `':'` occurs. -/
def takeUntilColon : List Char → Option (List Char × List Char)
  | [] => none
  | c :: rest =>
    if c = ':' then some ([], c :: rest)
    else
      match takeUntilColon rest with
      | some (a, b) => some (c :: a, b)
      | none => none

/-- `parse_node_property` from title.rs: blank lines, leading whitespace,
`delimited(tag(":"), take_until(":"), tag(":"))` mapped through
`trim_end_matches('+')` for the name, then the rest of the line, trimmed,
as the value. -/
def parse_node_property (input : List Char) :
    Option ((List Char × List Char) × List Char) :=
  match trimStart (blank_lines_count input).2 with
  | ':' :: rest =>
    match takeUntilColon rest with
    | some (name0, rest1) =>
      match rest1 with
      | ':' :: rest2 =>
        some ((trimEndMatchesPlus name0, trim (lineSplit rest2).1),
          (lineSplit rest2).2)
      | _ => none
    | none => none
  | _ => none

/-- `fold_many0(parse_node_property, …)`: collect node properties until the
first no-match.  Each successful `parse_node_property` consumes at least the
two colons, so fuel `content.length` always suffices. -/
def foldNodeProps : Nat → List Char → List (List Char × List Char)
  | 0, _ => []
  | fuel + 1, input =>
    match parse_node_property input with
    | some ((n, v), rest) => (n, v) :: foldNodeProps fuel rest
    | none => []

/-- `parse_properties_drawer` from title.rs.  `fr` is the external
`parse_drawer_without_blank` collaborator (contract from the spec:
`try_parse_unblanked(text) -> Option<(remainder, (DrawerHeader{name}, body_text))>`).
Rejects when the drawer's declared name is not exactly `PROPERTIES`. -/
def parse_properties_drawer
    (fr : List Char → Option (List Char × (List Char × List Char)))
    (input : List Char) : Option (List Char × List (List Char × List Char)) :=
  match fr (trimStart input) with
  | none => none
  | some (input', (name, content)) =>
    if name = "PROPERTIES".toList then
      some (input', foldNodeProps content.length content)
    else none

/-- Input after the properties-drawer attempt. -/
def titleIn6 (pl : List Char → Option (List Char))
    (fr : List Char → Option (List Char × (List Char × List Char)))
    (config : ParseConfig) (input : List Char) : List Char :=
  match parse_properties_drawer fr (titleIn5 pl config input) with
  | some (r, _) => r
  | none => titleIn5 pl config input

/-- `parse_title` from title.rs, composed from the stage functions above in
the source's order: stars, keyword attempt, priority attempt, line tail,
tag extraction, planning attempt, properties drawer attempt, blank lines.
Returns `(remaining input, (Title, raw title text))`. -/
def parse_title (pl : List Char → Option (List Char))
    (fr : List Char → Option (List Char × (List Char × List Char)))
    (isAlnum : Char → Bool) (config : ParseConfig) (input : List Char) :
    List Char × (Title × List Char) :=
  let level := (input.takeWhile (fun c => c = '*')).length
  let keyword := (keywordResult config (titleIn1 input)).1
  let priority := (priorityResult (titleIn2 config input)).1
  let rt := rawTagsSplit isAlnum (titleTail config input)
  let raw := rt.1
  let tags := (splitOnColon rt.2).filter (fun s => !s.isEmpty)
  let planning := (pl (titleIn4 config input)).map (fun _ => ())
  let properties :=
    match parse_properties_drawer fr (titleIn5 pl config input) with
    | some (_, m) => m
    | none => []
  let pb := blank_lines_count (titleIn6 pl fr config input)
  (pb.2,
   ({ level := level, priority := priority, tags := tags, keyword := keyword,
      raw := raw, planning := planning, properties := properties,
      post_blank := pb.1 }, raw))

/-! ## The inline object scanner (`src/objects/mod.rs`) -/

/-- The `Object` enum of objects/mod.rs.  Structural variants whose payload
is a fully parsed external sub-entity are modelled without the payload (the
sub-entities are produced by excluded collaborator modules); span variants
carry the end offset, leaf variants the delimited text, exactly as in the
source. -/
inductive Object where
  | cookie
  | fnRef
  | inlineCall
  | inlineSrc
  | link
  | macros
  | radioTarget
  | snippet
  | target
  | bold (e : Nat)
  | italic (e : Nat)
  | strike (e : Nat)
  | underline (e : Nat)
  | verbatim (s : List Char)
  | code (s : List Char)
  | text (s : List Char)
deriving DecidableEq

/-- Modelled from the spec: the per-construct sub-parsers (Snippet, Macros,
RadioTarget, Target, FnRef, Link, Cookie, InlineCall, InlineSrc, Emphasis)
are external collaborators with contract
`try_parse(text_starting_at_marker) -> Option<(parsed_entity_or_end_offset, bytes_consumed)>`;
we keep only the consumed length / end offset. -/
structure Collaborators where
  snippet : List Char → Option Nat
  macros : List Char → Option Nat
  radioTarget : List Char → Option Nat
  target : List Char → Option Nat
  fnRef : List Char → Option Nat
  link : List Char → Option Nat
  cookie : List Char → Option Nat
  inlineCall : List Char → Option Nat
  inlineSrc : List Char → Option Nat
  emphasis : List Char → Char → Option Nat

/-- The border-shift arm of `next_2`'s three-byte `match`:
`(b'{', _, _) | (b' ', _, _) | (b'"', _, _) | (b',', _, _) | (b'(', _, _) | (b'\n', _, _) => pre += 1`.
This arm is reached exactly when it is the first matching arm, so for `'{'`
only when the earlier `(b'{', b'{', b'{')` arm did not match. -/
def borderShift (b0 b1 b2 : Char) : Bool :=
  (b0 = '{' && !(b1 = '{' && b2 = '{')) ||
    b0 = ' ' || b0 = '"' || b0 = ',' || b0 = '(' || b0 = '\n'

/-- The structural (three-byte) dispatch of `next_2` at a candidate
position: the match arms before the border arm, in source order, each
calling its collaborator; `none` both when no arm matches and when the
matching arm's collaborator reports no match (Rust match arms do not fall
through to one another). -/
def structuralDispatch (co : Collaborators) (src : List Char) (pos : Nat)
    (b0 b1 b2 : Char) : Option (Object × Nat) :=
  if b0 = '@' && b1 = '@' then
    (co.snippet (src.drop pos)).map (fun off => (Object.snippet, off))
  else if b0 = '{' && b1 = '{' && b2 = '{' then
    (co.macros (src.drop pos)).map (fun off => (Object.macros, off))
  else if b0 = '<' && b1 = '<' && b2 = '<' then
    (co.radioTarget (src.drop pos)).map (fun off => (Object.radioTarget, off))
  else if b0 = '<' && b1 = '<' then
    if b2 ≠ '\n' then
      (co.target (src.drop pos)).map (fun off => (Object.target, off))
    else none
  else if b0 = '[' && b1 = 'f' && b2 = 'n' then
    (co.fnRef (src.drop pos)).map (fun off => (Object.fnRef, off))
  else if b0 = '[' && b1 = '[' then
    (co.link (src.drop pos)).map (fun off => (Object.link, off))
  else if b0 = '[' then
    (co.cookie (src.drop pos)).map (fun off => (Object.cookie, off))
  else none

/-- The emphasis/leaf (single-byte) dispatch of `next_2` at the (possibly
border-shifted) position `pre` with byte `bp`. -/
def emphasisDispatch (co : Collaborators) (src : List Char) (pre : Nat)
    (bp : Char) : Option (Object × Nat) :=
  if bp = '*' then
    (co.emphasis (src.drop pre) '*').map (fun e => (Object.bold e, 1))
  else if bp = '+' then
    (co.emphasis (src.drop pre) '+').map (fun e => (Object.strike e, 1))
  else if bp = '/' then
    (co.emphasis (src.drop pre) '/').map (fun e => (Object.italic e, 1))
  else if bp = '_' then
    (co.emphasis (src.drop pre) '_').map (fun e => (Object.underline e, 1))
  else if bp = '=' then
    (co.emphasis (src.drop pre) '=').map
      (fun e => (Object.verbatim ((src.drop (pre + 1)).take (e - 1)), e + 1))
  else if bp = '~' then
    (co.emphasis (src.drop pre) '~').map
      (fun e => (Object.code ((src.drop (pre + 1)).take (e - 1)), e + 1))
  else if bp = 'c' then
    (co.inlineCall (src.drop pre)).map (fun off => (Object.inlineCall, off))
  else if bp = 's' then
    (co.inlineSrc (src.drop pre)).map (fun off => (Object.inlineSrc, off))
  else none

/-- The marker set of `ascii_chars!('@', ' ', '"', '(', '\n', '{', '<', '[')`. -/
def isSearchChar (c : Char) : Bool :=
  c = '@' || c = ' ' || c = '"' || c = '(' || c = '\n' || c = '{' ||
    c = '<' || c = '['

/-- The candidate-advance step of `next_2`'s loop:
`chars.find(&src[pos+1..]).map(|i| i + pos + 1).filter(|&i| i < src.len() - 2)`. -/
def nextCandidate (src : List Char) (pos : Nat) : Option Nat :=
  match ((src.drop (pos + 1)).findIdx? isSearchChar).map (fun i => i + pos + 1) with
  | some i => if i < src.length - 2 then some i else none
  | none => none

/-- The `brk!` macro of `next_2`: at loop position 0 return the construct
alone, otherwise return the text prefix `src[0..p]` plus the construct. -/
def next2Brk (src : List Char) (pos : Nat) (obj : Object) (off p : Nat) :
    Object × Nat × Option (Object × Nat) :=
  if pos = 0 then (obj, off, none)
  else (Object.text (src.take p), p, some (obj, off))

/-- The search loop of `next_2`.  The loop itself is not recursive in the
source; `fuel` bounds the iteration count, and `next2Go_fuel_irrelevant`
below shows any fuel of at least `src.length - pos` gives the loop's true
result (each iteration strictly increases `pos`). -/
def next2Go (co : Collaborators) (src : List Char) :
    Nat → Nat → Object × Nat × Option (Object × Nat)
  | 0, _ => (Object.text src, src.length, none)
  | fuel + 1, pos =>
    let b0 := src.getD pos ' '
    let b1 := src.getD (pos + 1) ' '
    let b2 := src.getD (pos + 2) ' '
    match structuralDispatch co src pos b0 b1 b2 with
    | some (obj, off) => next2Brk src pos obj off pos
    | none =>
      let pre := if borderShift b0 b1 b2 then pos + 1 else pos
      match emphasisDispatch co src pre (src.getD pre ' ') with
      | some (obj, off) => next2Brk src pos obj off pre
      | none =>
        match nextCandidate src pos with
        | some off => next2Go co src fuel off
        | none => (Object.text src, src.length, none)

/-- `Object::next_2` from objects/mod.rs. -/
def next_2 (co : Collaborators) (src : List Char) :
    Object × Nat × Option (Object × Nat) :=
  if src.length ≤ 2 then (Object.text src, src.length, none)
  else next2Go co src src.length 0

/-! ## Helper lemmas about characters and list splitting -/

lemma isSpaceTab_rustWS {c : Char} (h : isSpaceTab c = true) :
    isRustWhitespace c = true := by
  rcases Bool.or_eq_true_iff.1 h with h1 | h1 <;>
    simp_all [isSpaceTab, isRustWhitespace]

lemma takeWhile_append_of_all {p : Char → Bool} {a : List Char} (b : List Char)
    (ha : ∀ c ∈ a, p c = true) : (a ++ b).takeWhile p = a ++ b.takeWhile p := by
  induction a with
  | nil => simp
  | cons x xs ih =>
    simp only [List.cons_append, List.takeWhile_cons, ha x (by simp)]
    rw [ih (fun c hc => ha c (by simp [hc]))]
    simp

lemma dropWhile_append_of_all {p : Char → Bool} {a : List Char} (b : List Char)
    (ha : ∀ c ∈ a, p c = true) : (a ++ b).dropWhile p = b.dropWhile p := by
  induction a with
  | nil => simp
  | cons x xs ih =>
    simp only [List.cons_append, List.dropWhile_cons, ha x (by simp)]
    exact ih (fun c hc => ha c (by simp [hc]))

lemma takeWhile_eq_nil_of_head {p : Char → Bool} {l : List Char}
    (h : ∀ c, l.head? = some c → p c = false) : l.takeWhile p = [] := by
  cases l with
  | nil => rfl
  | cons x xs => simp [List.takeWhile_cons, h x rfl]

lemma dropWhile_eq_self_of_head {p : Char → Bool} {l : List Char}
    (h : ∀ c, l.head? = some c → p c = false) : l.dropWhile p = l := by
  cases l with
  | nil => rfl
  | cons x xs => simp [List.dropWhile_cons, h x rfl]

lemma head_dropWhile {p : Char → Bool} {l : List Char} :
    ∀ c, (l.dropWhile p).head? = some c → p c = false := by
  induction l with
  | nil => intro c h; simp at h
  | cons x xs ih =>
    intro c h
    by_cases hx : p x
    · exact ih c (by simpa [List.dropWhile_cons, hx] using h)
    · simp only [List.dropWhile_cons, if_neg hx] at h
      simp only [List.head?_cons, Option.some.injEq] at h
      subst h; exact Bool.eq_false_iff.2 hx

lemma mem_takeWhile {p : Char → Bool} {l : List Char} {c : Char}
    (h : c ∈ l.takeWhile p) : p c = true := List.mem_takeWhile_imp h

/-- `space1` succeeds exactly by splitting off the maximal nonempty
space/tab run. -/
lemma space1_some_decomp {input s r : List Char}
    (h : space1 input = some (s, r)) :
    input = s ++ r ∧ s ≠ [] ∧ (∀ c ∈ s, isSpaceTab c = true) ∧
      (∀ c, r.head? = some c → isSpaceTab c = false) := by
  unfold space1 at h
  split at h
  · exact absurd h (by simp)
  · rename_i hne
    simp only [Option.some.injEq, Prod.mk.injEq] at h
    obtain ⟨h1, h2⟩ := h
    subst h1; subst h2
    exact ⟨(List.takeWhile_append_dropWhile _ _).symm, hne,
      fun c hc => mem_takeWhile hc, fun c hc => head_dropWhile c hc⟩

lemma space1_append {ws rest : List Char} (hne : ws ≠ [])
    (hws : ∀ c ∈ ws, isSpaceTab c = true)
    (hr : ∀ c, rest.head? = some c → isSpaceTab c = false) :
    space1 (ws ++ rest) = some (ws, rest) := by
  unfold space1
  rw [takeWhile_append_of_all rest hws, takeWhile_eq_nil_of_head hr,
    dropWhile_append_of_all rest hws, dropWhile_eq_self_of_head hr]
  simp [hne]

lemma space1_none_head {input : List Char}
    (h : ∀ c, input.head? = some c → isSpaceTab c = false) :
    space1 input = none := by
  unfold space1
  rw [takeWhile_eq_nil_of_head h]
  simp

lemma one_word_some_decomp {input w r : List Char}
    (h : one_word input = some (w, r)) :
    input = w ++ r ∧ w ≠ [] ∧ (∀ c ∈ w, isRustWhitespace c = false) ∧
      (∀ c, r.head? = some c → isRustWhitespace c = true) := by
  unfold one_word at h
  split at h
  · exact absurd h (by simp)
  · rename_i hne
    simp only [Option.some.injEq, Prod.mk.injEq] at h
    obtain ⟨h1, h2⟩ := h
    subst h1; subst h2
    refine ⟨(List.takeWhile_append_dropWhile _ _).symm, hne,
      fun c hc => by simpa using mem_takeWhile hc,
      fun c hc => by simpa using head_dropWhile c hc⟩

lemma one_word_append {w rest : List Char} (hne : w ≠ [])
    (hw : ∀ c ∈ w, isRustWhitespace c = false)
    (hr : ∀ c, rest.head? = some c → isRustWhitespace c = true) :
    one_word (w ++ rest) = some (w, rest) := by
  unfold one_word
  rw [takeWhile_append_of_all rest (by simpa using hw),
    takeWhile_eq_nil_of_head (by simpa using hr),
    dropWhile_append_of_all rest (by simpa using hw),
    dropWhile_eq_self_of_head (by simpa using hr)]
  simp [hne]

lemma lineEnding_some_decomp {input s r : List Char}
    (h : lineEnding input = some (s, r)) :
    input = s ++ r ∧ s ≠ [] ∧ (∀ c ∈ s, isRustWhitespace c = true) := by
  unfold lineEnding at h
  split at h
  · rename_i rest
    simp only [Option.some.injEq, Prod.mk.injEq] at h
    obtain ⟨h1, h2⟩ := h
    subst h1; subst h2
    exact ⟨rfl, by simp, by intro c hc; simp at hc; subst hc; decide⟩
  · rename_i rest
    simp only [Option.some.injEq, Prod.mk.injEq] at h
    obtain ⟨h1, h2⟩ := h
    subst h1; subst h2
    refine ⟨rfl, by simp, ?_⟩
    intro c hc
    simp only [List.mem_cons, List.mem_singleton] at hc
    rcases hc with rfl | rfl | hc
    · decide
    · decide
    · simp at hc
  · exact absurd h (by simp)

lemma wsoe_some_decomp {input s r : List Char}
    (h : white_spaces_or_eol input = some (s, r)) :
    input = s ++ r ∧ s ≠ [] ∧ (∀ c ∈ s, isRustWhitespace c = true) := by
  unfold white_spaces_or_eol at h
  cases hsp : space1 input with
  | some p =>
    rw [hsp] at h
    injection h with h'
    subst h'
    obtain ⟨h1, h2, h3, _⟩ := space1_some_decomp hsp
    exact ⟨h1, h2, fun c hc => isSpaceTab_rustWS (h3 c hc)⟩
  | none =>
    rw [hsp] at h
    exact lineEnding_some_decomp h

/-- `lineSplit` decomposes its input into line content, an optional
terminator, and the remainder. -/
lemma lineSplit_decomp (l : List Char) :
    ∃ term, l = (lineSplit l).1 ++ term ++ (lineSplit l).2 ∧
      (term = [] ∨ term = ['\n'] ∨ term = ['\r', '\n']) ∧
      (term = [] → (lineSplit l).2 = []) := by
  induction l with
  | nil => exact ⟨[], by simp [lineSplit], Or.inl rfl, fun _ => by simp [lineSplit]⟩
  | cons c rest ih =>
    by_cases hn : c = '\n'
    · subst hn
      exact ⟨['\n'], by simp [lineSplit], Or.inr (Or.inl rfl), by simp [lineSplit]⟩
    · by_cases hr : c = '\r'
      · subst hr
        match rest, ih with
        | '\n' :: rest2, _ =>
          exact ⟨['\r', '\n'], by simp [lineSplit], Or.inr (Or.inr rfl),
            by simp [lineSplit]⟩
        | [], ih =>
          exact ⟨[], by simp [lineSplit], Or.inl rfl, fun _ => by simp [lineSplit]⟩
        | c2 :: rest2, ih =>
          by_cases h2 : c2 = '\n'
          · subst h2
            exact ⟨['\r', '\n'], by simp [lineSplit], Or.inr (Or.inr rfl),
              by simp [lineSplit]⟩
          · obtain ⟨term, he, hshape, hnil⟩ := ih
            refine ⟨term, ?_, hshape, ?_⟩
            · have : lineSplit ('\r' :: c2 :: rest2) =
                  (('\r' :: (lineSplit (c2 :: rest2)).1),
                    (lineSplit (c2 :: rest2)).2) := by
                simp [lineSplit, h2]
              rw [this]
              simpa using he
            · intro ht
              have : lineSplit ('\r' :: c2 :: rest2) =
                  (('\r' :: (lineSplit (c2 :: rest2)).1),
                    (lineSplit (c2 :: rest2)).2) := by
                simp [lineSplit, h2]
              rw [this]
              exact hnil ht
      · obtain ⟨term, he, hshape, hnil⟩ := ih
        have hls : lineSplit (c :: rest) =
            ((c :: (lineSplit rest).1), (lineSplit rest).2) := by
          simp [lineSplit, hn, hr]
        refine ⟨term, ?_, hshape, ?_⟩
        · rw [hls]; simpa using he
        · intro ht; rw [hls]; exact hnil ht

/-- `lineSplit` passes over a prefix free of `'\n'` and `'\r'`. -/
lemma lineSplit_append {a : List Char} (b : List Char)
    (ha : ∀ c ∈ a, c ≠ '\n' ∧ c ≠ '\r') :
    lineSplit (a ++ b) = (a ++ (lineSplit b).1, (lineSplit b).2) := by
  induction a with
  | nil => simp
  | cons c a' ih =>
    obtain ⟨hn, hr⟩ := ha c (by simp)
    have := ih (fun x hx => ha x (by simp [hx]))
    simp only [List.cons_append, lineSplit, hn, hr, if_false, this]
    simp [this]

/-- Decomposition of a list into its `trimStart` and a whitespace run. -/
lemma trimStart_decomp (l : List Char) :
    l = l.takeWhile isRustWhitespace ++ trimStart l ∧
      (∀ c ∈ l.takeWhile isRustWhitespace, isRustWhitespace c = true) :=
  ⟨(List.takeWhile_append_dropWhile _ _).symm, fun _ hc => mem_takeWhile hc⟩

lemma trimStart_eq_self_of_head {l : List Char}
    (h : ∀ c, l.head? = some c → isRustWhitespace c = false) : trimStart l = l :=
  dropWhile_eq_self_of_head h

lemma head_trimStart {l : List Char} :
    ∀ c, (trimStart l).head? = some c → isRustWhitespace c = false :=
  fun c hc => head_dropWhile c hc

/-- Decomposition of a list into its `trimEnd` and a trailing whitespace run. -/
lemma trimEnd_decomp (l : List Char) :
    ∃ w, l = trimEnd l ++ w ∧ (∀ c ∈ w, isRustWhitespace c = true) := by
  refine ⟨(l.reverse.takeWhile isRustWhitespace).reverse, ?_, ?_⟩
  · have h := List.takeWhile_append_dropWhile (p := isRustWhitespace) (l := l.reverse)
    calc l = l.reverse.reverse := l.reverse_reverse.symm
      _ = (List.takeWhile isRustWhitespace l.reverse ++
            List.dropWhile isRustWhitespace l.reverse).reverse := by rw [h]
      _ = trimEnd l ++ (List.takeWhile isRustWhitespace l.reverse).reverse := by
            rw [List.reverse_append]; rfl
  · intro c hc
    rw [List.mem_reverse] at hc
    exact mem_takeWhile hc

/-- `trimEnd` does not touch a nonempty all-non-whitespace prefix. -/
lemma trimEnd_append_nonws {w : List Char} (x : List Char)
    (hw : ∀ c ∈ w, isRustWhitespace c = false) :
    trimEnd (w ++ x) = w ++ trimEnd x := by
  unfold trimEnd
  rw [List.reverse_append, List.dropWhile_append]
  have hwr : w.reverse.dropWhile isRustWhitespace = w.reverse :=
    dropWhile_eq_self_of_head (by
      intro c hc
      have : c ∈ w.reverse := List.mem_of_mem_head? hc
      exact hw c (List.mem_reverse.1 this))
  split
  · rename_i hemp
    rw [List.isEmpty_iff] at hemp
    rw [hemp, hwr, List.reverse_reverse]
    simp
  · rw [List.reverse_append, List.reverse_reverse]

lemma trim_append_nonws {w : List Char} (x : List Char) (hne : w ≠ [])
    (hw : ∀ c ∈ w, isRustWhitespace c = false) :
    trim (w ++ x) = w ++ trimEnd x := by
  unfold trim
  have hhead : ∀ c, (w ++ x).head? = some c → isRustWhitespace c = false := by
    intro c hc
    cases w with
    | nil => exact absurd rfl hne
    | cons a w' =>
      simp only [List.cons_append, List.head?_cons, Option.some.injEq] at hc
      subst hc
      exact hw a (by simp)
  rw [trimStart_eq_self_of_head hhead]
  exact trimEnd_append_nonws x hw

/-- The head of `trim l` is not whitespace. -/
lemma head_trim {l : List Char} :
    ∀ c, (trim l).head? = some c → isRustWhitespace c = false := by
  intro c hc
  unfold trim at hc
  obtain ⟨w, hw, _⟩ := trimEnd_decomp (trimStart l)
  have hne : trimEnd (trimStart l) ≠ [] := by
    intro h0; rw [h0] at hc; simp at hc
  have : (trimStart l).head? = some c := by
    rw [hw, List.head?_append]
    cases hh : (trimEnd (trimStart l)).head? with
    | none => exact absurd (List.head?_eq_none_iff.1 hh) hne
    | some d => rw [hc] at hh; simp [hh]
  exact head_trimStart c this

lemma memrchr_none_iff {l : List Char} :
    memrchr2SpaceTab l = none ↔ ∀ c ∈ l, isSpaceTab c = false := by
  induction l with
  | nil => simp [memrchr2SpaceTab]
  | cons c rest ih =>
    cases hm : memrchr2SpaceTab rest with
    | some i =>
      simp only [memrchr2SpaceTab, hm]
      constructor
      · intro h; exact absurd h (by simp)
      · intro h
        have h0 : memrchr2SpaceTab rest = none :=
          ih.2 (fun x hx => h x (by simp [hx]))
        rw [hm] at h0; exact absurd h0 (by simp)
    | none =>
      have hr := ih.1 hm
      simp only [memrchr2SpaceTab, hm]
      by_cases hc : isSpaceTab c = true
      · constructor
        · intro h; rw [if_pos hc] at h; exact absurd h (by simp)
        · intro h; exact absurd (h c (by simp)) (by simp [hc])
      · constructor
        · intro _ x hx
          rcases List.mem_cons.1 hx with rfl | hx'
          · exact Bool.eq_false_iff.2 hc
          · exact hr x hx'
        · intro _; rw [if_neg hc]

/-- `memrchr2SpaceTab` finds the last space-or-tab: the list splits there,
with no space-or-tab after it. -/
lemma memrchr_some_decomp {l : List Char} {i : Nat}
    (h : memrchr2SpaceTab l = some i) :
    ∃ a c b, l = a ++ c :: b ∧ a.length = i ∧ isSpaceTab c = true ∧
      (∀ x ∈ b, isSpaceTab x = false) := by
  induction l generalizing i with
  | nil => simp [memrchr2SpaceTab] at h
  | cons d rest ih =>
    unfold memrchr2SpaceTab at h
    cases hm : memrchr2SpaceTab rest with
    | some j =>
      rw [hm] at h
      injection h with h'
      obtain ⟨a, c, b, he, hl, hc, hb⟩ := ih hm
      exact ⟨d :: a, c, b, by simp [he], by simp [hl, h'.symm], hc, hb⟩
    | none =>
      rw [hm] at h
      by_cases hd : isSpaceTab d = true
      · rw [if_pos hd] at h
        injection h with h'
        exact ⟨[], d, rest, rfl, by simp [h'.symm], hd, memrchr_none_iff.1 hm⟩
      · rw [if_neg hd] at h; exact absurd h (by simp)

/-- Conversely, the split position is what `memrchr2SpaceTab` returns. -/
lemma memrchr_append {a : List Char} (c : Char) (b : List Char)
    (hc : isSpaceTab c = true) (hb : ∀ x ∈ b, isSpaceTab x = false) :
    memrchr2SpaceTab (a ++ c :: b) = some a.length := by
  induction a with
  | nil =>
    simp only [List.nil_append, List.length_nil]
    simp only [memrchr2SpaceTab]
    rw [memrchr_none_iff.2 hb]
    simp [hc]
  | cons d a' ih =>
    simp only [List.cons_append]
    simp only [memrchr2SpaceTab]
    rw [ih]
    simp

/-! ## Projections of `parse_title` (all definitional) -/

section

variable (pl : List Char → Option (List Char))
variable (fr : List Char → Option (List Char × (List Char × List Char)))
variable (isAlnum : Char → Bool) (cfg : ParseConfig) (input : List Char)

lemma parse_title_level :
    (parse_title pl fr isAlnum cfg input).2.1.level =
      (input.takeWhile (fun c => c = '*')).length := rfl

lemma parse_title_keyword :
    (parse_title pl fr isAlnum cfg input).2.1.keyword =
      (keywordResult cfg (titleIn1 input)).1 := rfl

lemma parse_title_priority :
    (parse_title pl fr isAlnum cfg input).2.1.priority =
      (priorityResult (titleIn2 cfg input)).1 := rfl

lemma parse_title_raw :
    (parse_title pl fr isAlnum cfg input).2.1.raw =
      (rawTagsSplit isAlnum (titleTail cfg input)).1 := rfl

lemma parse_title_tags :
    (parse_title pl fr isAlnum cfg input).2.1.tags =
      (splitOnColon (rawTagsSplit isAlnum (titleTail cfg input)).2).filter
        (fun s => !s.isEmpty) := rfl

lemma parse_title_properties :
    (parse_title pl fr isAlnum cfg input).2.1.properties =
      (match parse_properties_drawer fr (titleIn5 pl cfg input) with
        | some (_, m) => m
        | none => []) := rfl

lemma parse_title_rem :
    (parse_title pl fr isAlnum cfg input).1 =
      (blank_lines_count (titleIn6 pl fr cfg input)).2 := rfl

end

/-! ## Lemmas for the node-property parser -/

lemma blankLine_none_of_head {input : List Char} {c : Char}
    (h : input.head? = some c) (h1 : isSpaceTab c = false) (h2 : c ≠ '\n')
    (h3 : c ≠ '\r') : blankLine input = none := by
  cases input with
  | nil => simp at h
  | cons d rest =>
    simp only [List.head?_cons, Option.some.injEq] at h
    subst h
    unfold blankLine
    rw [dropWhile_eq_self_of_head (by
      intro e he
      simp only [List.head?_cons, Option.some.injEq] at he
      subst he; exact h1)]
    split <;> simp_all

lemma blank_lines_eq_self {input : List Char} {c : Char}
    (h : input.head? = some c) (h1 : isSpaceTab c = false) (h2 : c ≠ '\n')
    (h3 : c ≠ '\r') : blank_lines_count input = (0, input) := by
  unfold blank_lines_count
  cases input with
  | nil => simp at h
  | cons d rest =>
    simp only [List.length_cons]
    unfold blankLinesGo
    rw [blankLine_none_of_head h h1 h2 h3]

lemma takeUntilColon_append {a : List Char} (b : List Char) (ha : ':' ∉ a) :
    takeUntilColon (a ++ ':' :: b) = some (a, ':' :: b) := by
  induction a with
  | nil => simp [takeUntilColon]
  | cons c a' ih =>
    have hc : ¬c = ':' := fun h => ha (by simp [h])
    simp only [List.cons_append, takeUntilColon, if_neg hc]
    rw [show a'.append (':' :: b) = a' ++ ':' :: b from rfl,
      ih (fun h => ha (by simp [h]))]

lemma trimEndMatchesPlus_append {nm : List Char} (k : Nat)
    (h : nm.getLast? ≠ some '+') :
    trimEndMatchesPlus (nm ++ List.replicate k '+') = nm := by
  unfold trimEndMatchesPlus
  rw [List.reverse_append, List.reverse_replicate]
  rw [dropWhile_append_of_all _ (by
    intro c hc
    have := List.eq_of_mem_replicate hc
    simp [this])]
  rw [dropWhile_eq_self_of_head (by
    intro c hc
    rw [List.head?_reverse] at hc
    by_contra hne
    simp only [decide_eq_false_iff_not, not_not] at hne
    exact h (hne ▸ hc))]
  exact nm.reverse_reverse

/-! ## Concrete collaborator instances used in closed witnesses -/

/-- A planning sub-parser that never matches. -/
def plNone : List Char → Option (List Char) := fun _ => none

/-- A drawer framing sub-parser that never matches. -/
def frNone : List Char → Option (List Char × (List Char × List Char)) :=
  fun _ => none

/-- A drawer framing sub-parser that always frames a drawer named `FOO`. -/
def frFoo : List Char → Option (List Char × (List Char × List Char)) :=
  fun _ => some ([], ("FOO".toList, []))

/-- An empty keyword configuration. -/
def cfgEmpty : ParseConfig := ⟨([], [])⟩

/-- A configuration with open keyword `TODO` and closed keyword `DONE`. -/
def cfgTD : ParseConfig := ⟨(["TODO".toList], ["DONE".toList])⟩

/-! ## Claim C5 -/

/-- Counterexample to C5 as stated: parsing the node property
`:FOO++: v` stores the name `FOO` — **both** trailing `'+'` characters are
stripped by `trim_end_matches('+')`, not exactly one (which would give
`FOO+`). -/
theorem title_c5_counterexample :
    (parse_node_property ":FOO++: v".toList).map (fun r => r.1.1) =
        some "FOO".toList ∧
      some "FOO".toList ≠ some "FOO+".toList := by
  constructor
  · rfl
  · decide

/-- C5 (amended): when parsing one node property inside a property drawer,
**all** trailing `'+'` characters are stripped from the `:NAME:` token to
form the stored property name; in particular a name ending in a single `'+'`
loses exactly that one `'+'` and no further characters (the `k = 1` case
below), and no other character is ever removed from the name. -/
theorem title_c5 (nm v : List Char) (k : Nat) (hcolon : ':' ∉ nm)
    (hlast : nm.getLast? ≠ some '+') :
    parse_node_property (':' :: (nm ++ List.replicate k '+') ++ ':' :: v) =
      some ((nm, trim (lineSplit v).1), (lineSplit v).2) := by
  have hhead : (':' :: (nm ++ List.replicate k '+') ++ ':' :: v).head? =
      some ':' := by simp
  unfold parse_node_property
  rw [blank_lines_eq_self hhead (by decide) (by decide) (by decide)]
  rw [show ((0 : Nat), ':' :: (nm ++ List.replicate k '+') ++ ':' :: v).2 =
    ':' :: ((nm ++ List.replicate k '+') ++ ':' :: v) from by simp]
  rw [trimStart_eq_self_of_head (by
    intro c hc
    simp only [List.head?_cons, Option.some.injEq] at hc
    subst hc; decide)]
  have hnocolon : ':' ∉ nm ++ List.replicate k '+' := by
    intro h
    rcases List.mem_append.1 h with h' | h'
    · exact hcolon h'
    · have := List.eq_of_mem_replicate h'
      simp at this
  rw [show (':' :: ((nm ++ List.replicate k '+') ++ ':' :: v) : List Char) =
    ':' :: ((nm ++ List.replicate k '+') ++ ':' :: v) from rfl]
  simp only [takeUntilColon_append v hnocolon]
  rw [trimEndMatchesPlus_append k hlast]

/-- Closed witness for C5 at `nm = FOO`, one trailing `'+'`, value ` v`. -/
theorem title_c5_witness :
    parse_node_property (':' :: ("FOO".toList ++ List.replicate 1 '+') ++
        ':' :: " v".toList) =
      some (("FOO".toList, "v".toList), []) := by
  rw [title_c5 "FOO".toList " v".toList 1 (by decide) (by decide)]
  rfl

/-! ## Claim C6 -/

/-- C6: the property-drawer sub-parse signals no-match whenever the framed
drawer's declared name is not exactly `PROPERTIES` (first conjunct), and
whenever the drawer attempt fails the parsed title has empty `properties`
and the drawer input is left unconsumed — the title parse's remainder is
just the post-planning input with trailing blank lines counted off
(second conjunct). -/
theorem title_c6 (pl : List Char → Option (List Char))
    (fr : List Char → Option (List Char × (List Char × List Char)))
    (isAlnum : Char → Bool) (cfg : ParseConfig)
    (input din rem name content : List Char) :
    (fr (trimStart din) = some (rem, (name, content)) →
      name ≠ "PROPERTIES".toList → parse_properties_drawer fr din = none) ∧
    (parse_properties_drawer fr (titleIn5 pl cfg input) = none →
      (parse_title pl fr isAlnum cfg input).2.1.properties = [] ∧
      (parse_title pl fr isAlnum cfg input).1 =
        (blank_lines_count (titleIn5 pl cfg input)).2) := by
  constructor
  · intro hfr hname
    unfold parse_properties_drawer
    rw [hfr]
    have : ¬name = ['P', 'R', 'O', 'P', 'E', 'R', 'T', 'I', 'E', 'S'] := by
      intro h
      exact hname (by rw [h]; rfl)
    simp [this]
  · intro hnone
    constructor
    · rw [parse_title_properties, hnone]
    · rw [parse_title_rem]
      unfold titleIn6
      rw [hnone]

/-- Closed witness for C6: a framing collaborator that yields a drawer
named `FOO` makes the drawer sub-parse fail and leaves `properties` empty
and the drawer input unconsumed. -/
theorem title_c6_witness :
    parse_properties_drawer frFoo "x".toList = none ∧
      (parse_title plNone frFoo Char.isAlphanum cfgTD "* T".toList).2.1.properties
          = [] := by
  refine ⟨(title_c6 plNone frFoo Char.isAlphanum cfgTD "* T".toList "x".toList
      [] "FOO".toList [] ).1 rfl (by decide), ?_⟩
  exact ((title_c6 plNone frFoo Char.isAlphanum cfgTD "* T".toList "x".toList
      [] "FOO".toList []).2 (by
    exact (title_c6 plNone frFoo Char.isAlphanum cfgTD "* T".toList
      (titleIn5 plNone cfgTD "* T".toList) [] "FOO".toList []).1 rfl
      (by decide))).1

/-- A collaborator set whose emphasis sub-parser accepts everything with
end offset 2 and whose other sub-parsers never match. -/
def coAccept : Collaborators :=
  { snippet := fun _ => none, macros := fun _ => none,
    radioTarget := fun _ => none, target := fun _ => none,
    fnRef := fun _ => none, link := fun _ => none, cookie := fun _ => none,
    inlineCall := fun _ => none, inlineSrc := fun _ => none,
    emphasis := fun _ _ => some 2 }

/-! ## Scanner helper lemmas -/

/-- When the border-shift arm matched, no structural arm did, so the
structural dispatch reports no match regardless of the collaborators. -/
lemma structuralDispatch_none_of_border {co : Collaborators}
    {src : List Char} {pos : Nat} {b0 b1 b2 : Char}
    (hb : borderShift b0 b1 b2 = true) :
    structuralDispatch co src pos b0 b1 b2 = none := by
  unfold borderShift at hb
  unfold structuralDispatch
  rcases Bool.or_eq_true_iff.1 hb with h | h
  · rcases Bool.or_eq_true_iff.1 h with h | h
    · rcases Bool.or_eq_true_iff.1 h with h | h
      · rcases Bool.or_eq_true_iff.1 h with h | h
        · rcases Bool.or_eq_true_iff.1 h with h | h
          · obtain ⟨h1, h2⟩ := Bool.and_eq_true_iff.1 h
            have hb0 : b0 = '{' := by simpa using h1
            subst hb0
            simp only [Bool.not_eq_true'] at h2
            simp [h2]
          · have hb0 : b0 = ' ' := by simpa using h
            subst hb0; rfl
        · have hb0 : b0 = '"' := by simpa using h
          subst hb0; rfl
      · have hb0 : b0 = ',' := by simpa using h
        subst hb0; rfl
    · have hb0 : b0 = '(' := by simpa using h
      subst hb0; rfl
  · have hb0 : b0 = '\n' := by simpa using h
    subst hb0; rfl

/-- Past the end of the input the scan loop immediately runs out of
candidates and returns the whole span as text, whatever the fuel. -/
lemma next2Go_oob {co : Collaborators} {src : List Char} {pos : Nat}
    (h : src.length ≤ pos) :
    ∀ f, next2Go co src f pos = (Object.text src, src.length, none) := by
  intro f
  cases f with
  | zero => rfl
  | succ f' =>
    have hd0 : src.getD pos ' ' = ' ' := List.getD_eq_default _ _ h
    have hd1 : src.getD (pos + 1) ' ' = ' ' :=
      List.getD_eq_default _ _ (by omega)
    have hd2 : src.getD (pos + 2) ' ' = ' ' :=
      List.getD_eq_default _ _ (by omega)
    have hcand : nextCandidate src pos = none := by
      unfold nextCandidate
      rw [List.drop_eq_nil_of_le (by omega)]
      rfl
    simp only [next2Go, hd0, hd1, hd2]
    have hstruct : structuralDispatch co src pos ' ' ' ' ' ' = none := rfl
    rw [hstruct]
    have hborder : borderShift ' ' ' ' ' ' = true := rfl
    rw [hborder]
    simp only [if_true]
    have hemph : emphasisDispatch co src (pos + 1) (src.getD (pos + 1) ' ') =
        none := by rw [hd1]; rfl
    rw [hemph, hcand]

/-- `nextCandidate` strictly advances the loop position and keeps it below
`src.length - 2`. -/
lemma nextCandidate_bound {src : List Char} {pos off : Nat}
    (h : nextCandidate src pos = some off) :
    pos < off ∧ off < src.length - 2 := by
  unfold nextCandidate at h
  cases hf : ((src.drop (pos + 1)).findIdx? isSearchChar) with
  | none => rw [hf] at h; simp at h
  | some i =>
    rw [hf] at h
    simp only [Option.map_some'] at h
    split at h
    · rename_i hlt
      injection h with h'
      subst h'
      exact ⟨by omega, hlt⟩
    · exact absurd h (by simp)

/-- The loop result does not depend on the fuel once the fuel covers the
remaining distance: each iteration strictly increases `pos`. -/
lemma next2Go_fuel_irrelevant {co : Collaborators} {src : List Char} :
    ∀ (f : Nat) (pos g : Nat), src.length - pos ≤ f → src.length - pos ≤ g →
      next2Go co src f pos = next2Go co src g pos := by
  intro f
  induction f with
  | zero =>
    intro pos g hf _
    have hp : src.length ≤ pos := by omega
    rw [next2Go_oob hp 0, next2Go_oob hp g]
  | succ f' ih =>
    intro pos g hf hg
    by_cases hp : src.length ≤ pos
    · rw [next2Go_oob hp (f' + 1), next2Go_oob hp g]
    · have hg1 : 1 ≤ g := by omega
      obtain ⟨g', rfl⟩ : ∃ g'', g = g'' + 1 := ⟨g - 1, by omega⟩
      simp only [next2Go]
      cases hS : structuralDispatch co src pos (src.getD pos ' ')
          (src.getD (pos + 1) ' ') (src.getD (pos + 2) ' ') with
      | some r => rfl
      | none =>
        cases hE : emphasisDispatch co src
            (if borderShift (src.getD pos ' ') (src.getD (pos + 1) ' ')
                (src.getD (pos + 2) ' ') then pos + 1 else pos)
            (src.getD (if borderShift (src.getD pos ' ')
                (src.getD (pos + 1) ' ') (src.getD (pos + 2) ' ')
              then pos + 1 else pos) ' ') with
        | some r => rfl
        | none =>
          cases hN : nextCandidate src pos with
          | none => rfl
          | some off =>
            obtain ⟨h1, h2⟩ := nextCandidate_bound hN
            exact ih off g' (by omega) (by omega)

/-! ## Claim C7 -/

/-- Counterexample to C7 as stated: a tab at the candidate position does
**not** shift the dispatch position (with an always-accepting emphasis
collaborator, `\t*b*x` is classified as plain text, so the emphasis at
index 1 was never tried), while `'{'` (not starting `{{{`) **does** shift
(the same collaborator sees the construct at index 1 and the scanner
returns it). -/
theorem obj_c7_counterexample :
    borderShift '\t' '*' 'b' = false ∧ borderShift '{' '*' 'b' = true ∧
      next_2 coAccept "\t*b*x".toList =
        (Object.text "\t*b*x".toList, 5, none) ∧
      next_2 coAccept "\x7b*b*x".toList = (Object.bold 2, 1, none) := by
  refine ⟨rfl, rfl, ?_, ?_⟩ <;> rfl

/-- C7 (amended): before the single-byte emphasis dispatch the scanner
advances one byte past the candidate exactly when its byte is a space,
double-quote, comma, opening parenthesis, newline, or an opening brace
that does not begin a `{{{` sequence; a tab never causes the shift
(tab is not even in the candidate search set). -/
theorem obj_c7 (b0 b1 b2 : Char) :
    (borderShift b0 b1 b2 = true ↔
      (b0 = ' ' ∨ b0 = '"' ∨ b0 = ',' ∨ b0 = '(' ∨ b0 = '\n' ∨
        (b0 = '{' ∧ ¬(b1 = '{' ∧ b2 = '{')))) ∧
    (b0 = '\t' → borderShift b0 b1 b2 = false) := by
  constructor
  · unfold borderShift
    simp only [Bool.or_eq_true, Bool.and_eq_true, Bool.not_eq_true',
      Bool.and_eq_false_iff, decide_eq_true_iff, decide_eq_false_iff_not]
    constructor
    · intro h
      tauto
    · intro h
      tauto
  · intro h
    subst h
    unfold borderShift
    simp

/-- Closed witness for C7 (amended) at `b0 = '\t'`. -/
theorem obj_c7_witness : borderShift '\t' '{' '{' = false :=
  (obj_c7 '\t' '{' '{').2 rfl

/-! ## Claim C8 -/

/-- C8: on a span whose first byte is a border character (border-shift arm
matches at position 0) immediately followed at index 1 by an emphasis
marker that the emphasis collaborator accepts, `next_2` returns the
construct alone — third component `none`, no plain-text prefix — so the
leading border byte appears in no returned segment. -/
theorem obj_c8 (co : Collaborators) (src : List Char) (m : Char) (e : Nat)
    (h3 : 2 < src.length)
    (hb : borderShift (src.getD 0 ' ') (src.getD 1 ' ') (src.getD 2 ' ') = true)
    (hm : src.getD 1 ' ' = m)
    (he : co.emphasis (src.drop 1) m = some e) :
    (m = '*' → next_2 co src = (Object.bold e, 1, none)) ∧
    (m = '+' → next_2 co src = (Object.strike e, 1, none)) ∧
    (m = '/' → next_2 co src = (Object.italic e, 1, none)) ∧
    (m = '_' → next_2 co src = (Object.underline e, 1, none)) ∧
    (m = '=' → next_2 co src =
      (Object.verbatim ((src.drop 2).take (e - 1)), e + 1, none)) ∧
    (m = '~' → next_2 co src =
      (Object.code ((src.drop 2).take (e - 1)), e + 1, none)) := by
  have hstep : next_2 co src =
      next2Brk src 0
        (match emphasisDispatch co src 1 m with
          | some (obj, _) => obj
          | none => Object.text src)
        (match emphasisDispatch co src 1 m with
          | some (_, off) => off
          | none => 0) 1 ∨
      (emphasisDispatch co src 1 m).isSome = false := by
    unfold next_2
    rw [if_neg (by omega)]
    obtain ⟨f, hf⟩ : ∃ f, src.length = f + 1 := ⟨src.length - 1, by omega⟩
    rw [hf]
    simp only [next2Go]
    rw [structuralDispatch_none_of_border hb]
    have hmG := hm
    simp only [List.getD] at hmG
    have hbG := hb
    simp only [List.getD, hmG] at hbG
    simp only [List.getD, hmG, hbG, if_true, Nat.zero_add]
    cases hE : emphasisDispatch co src 1 m with
    | some r =>
      left
      obtain ⟨obj, off⟩ := r
      simp [hE]
    | none => right; simp [hE]
  refine ⟨?_, ?_, ?_, ?_, ?_, ?_⟩ <;> intro hmm <;> subst hmm
  · have hE : emphasisDispatch co src 1 '*' = some (Object.bold e, 1) := by
      unfold emphasisDispatch; rw [if_pos rfl, he]; rfl
    rcases hstep with h | h
    · rw [h, hE]; rfl
    · rw [hE] at h; simp at h
  · have hE : emphasisDispatch co src 1 '+' = some (Object.strike e, 1) := by
      unfold emphasisDispatch; rw [if_neg (by decide), if_pos rfl, he]; rfl
    rcases hstep with h | h
    · rw [h, hE]; rfl
    · rw [hE] at h; simp at h
  · have hE : emphasisDispatch co src 1 '/' = some (Object.italic e, 1) := by
      unfold emphasisDispatch
      rw [if_neg (by decide), if_neg (by decide), if_pos rfl, he]; rfl
    rcases hstep with h | h
    · rw [h, hE]; rfl
    · rw [hE] at h; simp at h
  · have hE : emphasisDispatch co src 1 '_' = some (Object.underline e, 1) := by
      unfold emphasisDispatch
      rw [if_neg (by decide), if_neg (by decide), if_neg (by decide),
        if_pos rfl, he]; rfl
    rcases hstep with h | h
    · rw [h, hE]; rfl
    · rw [hE] at h; simp at h
  · have hE : emphasisDispatch co src 1 '=' =
        some (Object.verbatim ((src.drop 2).take (e - 1)), e + 1) := by
      unfold emphasisDispatch
      rw [if_neg (by decide), if_neg (by decide), if_neg (by decide),
        if_neg (by decide), if_pos rfl, he]; rfl
    rcases hstep with h | h
    · rw [h, hE]; rfl
    · rw [hE] at h; simp at h
  · have hE : emphasisDispatch co src 1 '~' =
        some (Object.code ((src.drop 2).take (e - 1)), e + 1) := by
      unfold emphasisDispatch
      rw [if_neg (by decide), if_neg (by decide), if_neg (by decide),
        if_neg (by decide), if_neg (by decide), if_pos rfl, he]; rfl
    rcases hstep with h | h
    · rw [h, hE]; rfl
    · rw [hE] at h; simp at h

/-- Closed witness for C8: a leading space followed by an accepted `*`
marker yields the bold span alone, silently dropping the space. -/
theorem obj_c8_witness :
    2 < (" *b*x".toList).length ∧
      next_2 coAccept " *b*x".toList = (Object.bold 2, 1, none) :=
  ⟨by decide,
    (obj_c8 coAccept " *b*x".toList '*' 2 (by decide) (by decide) rfl rfl).1 rfl⟩

/-! ## Claim C9 -/

/-- C9: every byte index the scanner reads is in bounds.  The loop is
entered only when `2 < src.length`, so position 0 satisfies the invariant
`pos + 2 < src.length` (first conjunct); `nextCandidate`'s filter
re-establishes the invariant on every advance (second conjunct); and under
the invariant the three-byte lookahead `pos`, `pos+1`, `pos+2` and the
(possibly border-shifted) dispatch position are all strictly below
`src.length` (third conjunct). -/
theorem obj_c9 (src : List Char) (pos off : Nat) :
    (2 < src.length → 0 + 2 < src.length) ∧
    (nextCandidate src pos = some off → off + 2 < src.length) ∧
    (∀ p, p + 2 < src.length →
      p < src.length ∧ p + 1 < src.length ∧ p + 2 < src.length ∧
      (if borderShift (src.getD p ' ') (src.getD (p + 1) ' ')
          (src.getD (p + 2) ' ') then p + 1 else p) < src.length) := by
  refine ⟨by omega, ?_, ?_⟩
  · intro h
    obtain ⟨_, h2⟩ := nextCandidate_bound h
    omega
  · intro p hp
    refine ⟨by omega, by omega, hp, ?_⟩
    split <;> omega

/-- Closed witness for C9 on `a@bcd` at the advance from position 0. -/
theorem obj_c9_witness :
    nextCandidate "a@bcd".toList 0 = some 1 ∧
      1 + 2 < ("a@bcd".toList).length :=
  ⟨by decide, (obj_c9 "a@bcd".toList 0 1).2.1 (by decide)⟩

/-! ## Claim C10 -/

/-- C10: the scanner's loop terminates on every input: a successful
candidate advance strictly increases the position, keeps it strictly below
`src.length - 2`, and strictly decreases the measure `src.length - pos`
(first conjunct), so the loop runs at most `src.length` iterations — any
fuel of at least `src.length - pos`, in particular the `src.length` used
by `next_2`, yields the loop's unique fixed result (second conjunct). -/
theorem obj_c10 (co : Collaborators) (src : List Char) (pos off : Nat) :
    (nextCandidate src pos = some off →
      pos < off ∧ off < src.length - 2 ∧
        src.length - off < src.length - pos) ∧
    (∀ f g, src.length - pos ≤ f → src.length - pos ≤ g →
      next2Go co src f pos = next2Go co src g pos) := by
  constructor
  · intro h
    obtain ⟨h1, h2⟩ := nextCandidate_bound h
    exact ⟨h1, h2, by omega⟩
  · intro f g hf hg
    exact next2Go_fuel_irrelevant f pos g hf hg

/-- Closed witness for C10 on `x(yzw` at position 0 with fuels 5 and 9. -/
theorem obj_c10_witness :
    (0 < 1 ∧ 1 < ("x(yzw".toList).length - 2 ∧
      ("x(yzw".toList).length - 1 < ("x(yzw".toList).length - 0) ∧
      next2Go coAccept "x(yzw".toList 5 0 = next2Go coAccept "x(yzw".toList 9 0 :=
  ⟨(obj_c10 coAccept "x(yzw".toList 0 1).1 (by decide),
    (obj_c10 coAccept "x(yzw".toList 0 1).2 5 9 (by decide) (by decide)⟩

/-- `rawTagsSplit` when the last space-or-tab exists and the trailing token
qualifies. -/
lemma rawTagsSplit_tag {isAlnum : Char → Bool} {tail : List Char} {i : Nat}
    (hm : memrchr2SpaceTab tail = some i)
    (htag : is_tag_line isAlnum (tail.drop (i + 1)) = true) :
    rawTagsSplit isAlnum tail = (trim (tail.take i), tail.drop (i + 1)) := by
  unfold rawTagsSplit
  rw [hm]
  show (if is_tag_line isAlnum (tail.drop (i + 1)) then
      (trim (tail.take i), tail.drop (i + 1)) else (tail, [])) = _
  rw [if_pos htag]

/-- `rawTagsSplit` when the trailing token does not qualify. -/
lemma rawTagsSplit_noqual {isAlnum : Char → Bool} {tail : List Char} {i : Nat}
    (hm : memrchr2SpaceTab tail = some i)
    (htag : is_tag_line isAlnum (tail.drop (i + 1)) = false) :
    rawTagsSplit isAlnum tail = (tail, []) := by
  unfold rawTagsSplit
  rw [hm]
  show (if is_tag_line isAlnum (tail.drop (i + 1)) then
      (trim (tail.take i), tail.drop (i + 1)) else (tail, [])) = _
  rw [if_neg (by simp [htag])]

/-- `rawTagsSplit` when there is no space-or-tab in the tail. -/
lemma rawTagsSplit_nosp {isAlnum : Char → Bool} {tail : List Char}
    (hm : memrchr2SpaceTab tail = none) :
    rawTagsSplit isAlnum tail = (tail, []) := by
  unfold rawTagsSplit
  rw [hm]

/-- The tag-character test, propositionally. -/
lemma tagChar_iff (isAlnum : Char → Bool) (c : Char) :
    (isAlnum c || c = '_' || c = '@' || c = '#' || c = '%' || c = ':') = true ↔
      (isAlnum c = true ∨ c = '_' ∨ c = '@' ∨ c = '#' ∨ c = '%' ∨ c = ':') := by
  simp only [Bool.or_eq_true, decide_eq_true_iff, or_assoc]

/-- `is_tag_line`, propositionally: length over 2, colon-delimited, only
tag characters. -/
lemma is_tag_line_iff (isAlnum : Char → Bool) (l : List Char) :
    is_tag_line isAlnum l = true ↔
      (2 < l.length ∧ l.head? = some ':' ∧ l.getLast? = some ':' ∧
        ∀ c ∈ l,
          (isAlnum c = true ∨ c = '_' ∨ c = '@' ∨ c = '#' ∨ c = '%' ∨
            c = ':')) := by
  unfold is_tag_line
  simp only [Bool.and_eq_true, decide_eq_true_iff, beq_iff_eq,
    List.all_eq_true]
  constructor
  · rintro ⟨⟨⟨h1, h2⟩, h3⟩, h4⟩
    exact ⟨h1, h2, h3, fun c hc => (tagChar_iff isAlnum c).1 (h4 c hc)⟩
  · rintro ⟨h1, h2, h3, h4⟩
    exact ⟨⟨⟨h1, h2⟩, h3⟩, fun c hc => (tagChar_iff isAlnum c).2 (h4 c hc)⟩

/-! ## Claim C4 -/

/-- C4: the token after the **last** space-or-tab of the trimmed tail (the
final conjunct characterises `memrchr2SpaceTab` as that last position)
qualifies as a tag group iff its length exceeds 2, it starts and ends with
`':'`, and every character is alphanumeric or one of `_ @ # % :` (first
conjunct); when it qualifies, `raw` is the trimmed head and `tags` is the
group split on `':'` with empty segments discarded in order (second
conjunct); otherwise `raw` is the entire tail and `tags` is empty (third
and fourth conjuncts). -/
theorem title_c4 (pl : List Char → Option (List Char))
    (fr : List Char → Option (List Char × (List Char × List Char)))
    (isAlnum : Char → Bool) (cfg : ParseConfig) (input : List Char) :
    (∀ i, memrchr2SpaceTab (titleTail cfg input) = some i →
      ((is_tag_line isAlnum ((titleTail cfg input).drop (i + 1)) = true ↔
          (2 < ((titleTail cfg input).drop (i + 1)).length ∧
           ((titleTail cfg input).drop (i + 1)).head? = some ':' ∧
           ((titleTail cfg input).drop (i + 1)).getLast? = some ':' ∧
           ∀ c ∈ (titleTail cfg input).drop (i + 1),
             (isAlnum c = true ∨ c = '_' ∨ c = '@' ∨ c = '#' ∨ c = '%' ∨
               c = ':'))) ∧
        (is_tag_line isAlnum ((titleTail cfg input).drop (i + 1)) = true →
          (parse_title pl fr isAlnum cfg input).2.1.raw =
              trim ((titleTail cfg input).take i) ∧
            (parse_title pl fr isAlnum cfg input).2.1.tags =
              (splitOnColon ((titleTail cfg input).drop (i + 1))).filter
                (fun s => !s.isEmpty)) ∧
        (is_tag_line isAlnum ((titleTail cfg input).drop (i + 1)) = false →
          (parse_title pl fr isAlnum cfg input).2.1.raw = titleTail cfg input ∧
            (parse_title pl fr isAlnum cfg input).2.1.tags = []))) ∧
    (memrchr2SpaceTab (titleTail cfg input) = none →
      (parse_title pl fr isAlnum cfg input).2.1.raw = titleTail cfg input ∧
        (parse_title pl fr isAlnum cfg input).2.1.tags = []) ∧
    (∀ i, memrchr2SpaceTab (titleTail cfg input) = some i ↔
      ∃ a c b, titleTail cfg input = a ++ c :: b ∧ a.length = i ∧
        isSpaceTab c = true ∧ ∀ x ∈ b, isSpaceTab x = false) := by
  refine ⟨?_, ?_, ?_⟩
  · intro i hm
    refine ⟨?_, ?_, ?_⟩
    · exact is_tag_line_iff isAlnum _
    · intro htag
      constructor
      · rw [parse_title_raw, rawTagsSplit_tag hm htag]
      · rw [parse_title_tags, rawTagsSplit_tag hm htag]
    · intro htag
      constructor
      · rw [parse_title_raw, rawTagsSplit_noqual hm htag]
      · rw [parse_title_tags, rawTagsSplit_noqual hm htag]
        rfl
  · intro hm
    constructor
    · rw [parse_title_raw, rawTagsSplit_nosp hm]
    · rw [parse_title_tags, rawTagsSplit_nosp hm]
      rfl
  · intro i
    constructor
    · exact memrchr_some_decomp
    · rintro ⟨a, c, b, he, hl, hc, hb⟩
      rw [he, memrchr_append c b hc hb, hl]

/-- Closed witness for C4 on `* a :t:` — the tail is `a :t:`, the last
space is at index 1, the trailing token `:t:` qualifies, so `raw = a` and
`tags = [t]`. -/
theorem title_c4_witness :
    (parse_title plNone frNone Char.isAlphanum cfgTD "* a :t:".toList).2.1.raw
        = trim ((titleTail cfgTD "* a :t:".toList).take 1) ∧
      (parse_title plNone frNone Char.isAlphanum cfgTD "* a :t:".toList).2.1.tags
        = (splitOnColon ((titleTail cfgTD "* a :t:".toList).drop 2)).filter
            (fun s => !s.isEmpty) :=
  ((title_c4 plNone frNone Char.isAlphanum cfgTD "* a :t:".toList).1 1
    (by decide)).2.1 (by decide)

/-! ## Keyword- and priority-step characterizations -/

/-- A whitespace-delimited word, together with what follows it, that the
priority-cookie attempt would consume: exactly `[#C]` with `C` uppercase
ASCII, followed by whitespace or a line ending. -/
def priorityWord (w rest : List Char) : Bool :=
  match w with
  | ['[', '#', c, ']'] =>
    isAsciiUppercase c && (white_spaces_or_eol rest).isSome
  | _ => false

lemma wsoe_none_of_head {input : List Char}
    (h : ∀ c, input.head? = some c → isRustWhitespace c = false) :
    white_spaces_or_eol input = none := by
  unfold white_spaces_or_eol
  rw [space1_none_head (by
    intro c hc
    have := h c hc
    by_contra hne
    simp only [Bool.not_eq_false] at hne
    rw [isSpaceTab_rustWS hne] at this
    simp at this)]
  cases input with
  | nil => rfl
  | cons c rest =>
    have hc := h c rfl
    unfold lineEnding
    have hn : c ≠ '\n' := by
      intro hh; subst hh; simp [isRustWhitespace] at hc
    have hr : c ≠ '\r' := by
      intro hh; subst hh; simp [isRustWhitespace] at hc
    split <;> simp_all

lemma uppercase_not_ws {c : Char} (h : isRustWhitespace c = true) :
    isAsciiUppercase c = false := by
  by_contra hne
  simp only [Bool.not_eq_false] at hne
  unfold isAsciiUppercase at hne
  simp only [Bool.and_eq_true, decide_eq_true_iff] at hne
  obtain ⟨ha, hz⟩ := hne
  unfold isRustWhitespace at h
  simp only [Bool.or_eq_true, Bool.and_eq_true, decide_eq_true_iff] at h
  casesm* _ ∨ _, _ ∧ _
  all_goals try subst_vars
  all_goals try exact absurd ha (by decide)
  all_goals try exact absurd hz (by decide)
  rename_i h1 h2
  exact absurd hz (not_le.2 (lt_of_lt_of_le (by decide) h1))

lemma keywordStep_some_decomp {cfg : ParseConfig} {in1 w r : List Char}
    (h : keywordStep cfg in1 = some (w, r)) :
    ∃ ws, in1 = ws ++ w ++ r ∧ ws ≠ [] ∧ (∀ c ∈ ws, isSpaceTab c = true) ∧
      w ≠ [] ∧ (∀ c ∈ w, isRustWhitespace c = false) ∧
      (cfg.todo_keywords.1.contains w || cfg.todo_keywords.2.contains w)
        = true := by
  unfold keywordStep at h
  split at h
  · exact absurd h (by simp)
  · rename_i s in1' hsp
    split at h
    · exact absurd h (by simp)
    · rename_i w' r' how
      split at h
      · rename_i hmem
        simp only [Option.some.injEq, Prod.mk.injEq] at h
        obtain ⟨h1, h2⟩ := h
        subst h1; subst h2
        obtain ⟨hs1, hs2, hs3, _⟩ := space1_some_decomp hsp
        obtain ⟨ho1, ho2, ho3, _⟩ := one_word_some_decomp how
        refine ⟨s, ?_, hs2, hs3, ho2, ho3, hmem⟩
        rw [hs1, ho1, List.append_assoc]
      · exact absurd h (by simp)

lemma keywordStep_word_mem {cfg : ParseConfig} {ws w rest : List Char}
    (hws : ∀ c ∈ ws, isSpaceTab c = true) (hwsne : ws ≠ [])
    (hwne : w ≠ []) (hw : ∀ c ∈ w, isRustWhitespace c = false)
    (hrest : ∀ c, rest.head? = some c → isRustWhitespace c = true)
    (hmem : (cfg.todo_keywords.1.contains w ||
      cfg.todo_keywords.2.contains w) = true) :
    keywordStep cfg (ws ++ w ++ rest) = some (w, rest) := by
  have hhead : ∀ c, (w ++ rest).head? = some c → isSpaceTab c = false := by
    intro c hc
    cases w with
    | nil => exact absurd rfl hwne
    | cons a w' =>
      simp only [List.cons_append, List.head?_cons, Option.some.injEq] at hc
      subst hc
      by_contra hne
      simp only [Bool.not_eq_false] at hne
      have := hw a (by simp)
      rw [isSpaceTab_rustWS hne] at this
      simp at this
  unfold keywordStep
  rw [List.append_assoc, space1_append hwsne hws hhead]
  show (match one_word (w ++ rest) with
    | none => none
    | some (w, rest) =>
      if (cfg.todo_keywords.1.contains w || cfg.todo_keywords.2.contains w)
        = true then some (w, rest) else none) = _
  rw [one_word_append hwne hw hrest]
  show (if (cfg.todo_keywords.1.contains w || cfg.todo_keywords.2.contains w)
      = true then some (w, rest) else none) = _
  rw [if_pos hmem]

lemma keywordStep_word_notmem {cfg : ParseConfig} {ws w rest : List Char}
    (hws : ∀ c ∈ ws, isSpaceTab c = true)
    (hwne : w ≠ []) (hw : ∀ c ∈ w, isRustWhitespace c = false)
    (hrest : ∀ c, rest.head? = some c → isRustWhitespace c = true)
    (hmem : (cfg.todo_keywords.1.contains w ||
      cfg.todo_keywords.2.contains w) = false) :
    keywordStep cfg (ws ++ w ++ rest) = none := by
  have hhead : ∀ c, (w ++ rest).head? = some c → isSpaceTab c = false := by
    intro c hc
    cases w with
    | nil => exact absurd rfl hwne
    | cons a w' =>
      simp only [List.cons_append, List.head?_cons, Option.some.injEq] at hc
      subst hc
      by_contra hne
      simp only [Bool.not_eq_false] at hne
      have := hw a (by simp)
      rw [isSpaceTab_rustWS hne] at this
      simp at this
  unfold keywordStep
  by_cases hwsne : ws = []
  · subst hwsne
    rw [List.nil_append, space1_none_head hhead]
  · rw [List.append_assoc, space1_append hwsne hws hhead]
    show (match one_word (w ++ rest) with
      | none => none
      | some (w, rest) =>
        if (cfg.todo_keywords.1.contains w || cfg.todo_keywords.2.contains w)
          = true then some (w, rest) else none) = _
    rw [one_word_append hwne hw hrest]
    show (if (cfg.todo_keywords.1.contains w ||
        cfg.todo_keywords.2.contains w) = true then some (w, rest) else none)
      = _
    rw [if_neg (by rw [hmem]; simp)]

/-- Splitting at a boundary between a `p`-true prefix and a non-`p` head is
unique. -/
lemma append_split_unique {p : Char → Bool} {a b a' b' : List Char}
    (he : a ++ b = a' ++ b')
    (ha : ∀ c ∈ a, p c = true) (ha' : ∀ c ∈ a', p c = true)
    (hb : ∀ c, b.head? = some c → p c = false)
    (hb' : ∀ c, b'.head? = some c → p c = false) :
    a = a' ∧ b = b' := by
  have h1 : (a ++ b).takeWhile p = a := by
    rw [takeWhile_append_of_all b ha, takeWhile_eq_nil_of_head hb,
      List.append_nil]
  have h1' : (a' ++ b').takeWhile p = a' := by
    rw [takeWhile_append_of_all b' ha', takeWhile_eq_nil_of_head hb',
      List.append_nil]
  have h2 : (a ++ b).dropWhile p = b := by
    rw [dropWhile_append_of_all b ha, dropWhile_eq_self_of_head hb]
  have h2' : (a' ++ b').dropWhile p = b' := by
    rw [dropWhile_append_of_all b' ha', dropWhile_eq_self_of_head hb']
  constructor
  · rw [← h1, he, h1']
  · rw [← h2, he, h2']

lemma not_ws_of_upper {c : Char} (h : isAsciiUppercase c = true) :
    isRustWhitespace c = false := by
  by_contra hne
  simp only [Bool.not_eq_false] at hne
  rw [uppercase_not_ws hne] at h
  simp at h

/-- The priority attempt succeeds only on `space1 ++ "[#" ++ C ++ "]" ++
whitespace-or-eol`. -/
lemma priorityStep_some_decomp {in2 : List Char} {c : Char} {r : List Char}
    (h : priorityStep in2 = some (c, r)) :
    ∃ ws rest2 wse, in2 = ws ++ '[' :: '#' :: c :: ']' :: rest2 ∧ ws ≠ [] ∧
      (∀ x ∈ ws, isSpaceTab x = true) ∧ isAsciiUppercase c = true ∧
      white_spaces_or_eol rest2 = some (wse, r) := by
  unfold priorityStep at h
  split at h
  · exact absurd h (by simp)
  · rename_i s in1' hsp
    split at h
    · rename_i c1 c2 c' rest
      split at h
      · rename_i htag
        obtain ⟨hc1, hc2⟩ := htag
        subst hc1; subst hc2
        split at h
        · rename_i hup
          split at h
          · rename_i c4 rest2
            split at h
            · rename_i hc4
              subst hc4
              split at h
              · rename_i p fst rest3 hwsoe
                simp only [Option.some.injEq, Prod.mk.injEq] at h
                obtain ⟨hcc, hrr⟩ := h
                subst hcc; subst hrr
                obtain ⟨hs1, hs2, hs3, _⟩ := space1_some_decomp hsp
                exact ⟨s, rest2, fst, by rw [hs1], hs2, hs3, hup, hwsoe⟩
              · exact absurd h (by simp)
            · exact absurd h (by simp)
          · exact absurd h (by simp)
        · exact absurd h (by simp)
      · exact absurd h (by simp)
    · exact absurd h (by simp)

/-- Conversely, such a shape makes the priority attempt succeed. -/
lemma priorityStep_construct {ws rest2 wse r : List Char} {c : Char}
    (hwsne : ws ≠ []) (hws : ∀ x ∈ ws, isSpaceTab x = true)
    (hup : isAsciiUppercase c = true)
    (hwsoe : white_spaces_or_eol rest2 = some (wse, r)) :
    priorityStep (ws ++ '[' :: '#' :: c :: ']' :: rest2) = some (c, r) := by
  unfold priorityStep
  rw [space1_append hwsne hws (by
    intro x hx
    simp only [List.head?_cons, Option.some.injEq] at hx
    subst hx; decide)]
  show (if ('[' : Char) = '[' ∧ ('#' : Char) = '#' then
      if isAsciiUppercase c then
        if (']' : Char) = ']' then
          match white_spaces_or_eol rest2 with
          | some (_, rest3) => some (c, rest3)
          | none => none
        else none
      else none
    else none) = _
  rw [if_pos ⟨rfl, rfl⟩, if_pos hup, if_pos rfl, hwsoe]

/-- With a word-shaped decomposition, the priority attempt fails whenever
the word (with its following text) is not exactly a consumable cookie. -/
lemma priorityStep_word_none {ws w rest : List Char}
    (hws : ∀ c ∈ ws, isSpaceTab c = true) (hwne : w ≠ [])
    (hw : ∀ c ∈ w, isRustWhitespace c = false)
    (hrest : ∀ c, rest.head? = some c → isRustWhitespace c = true)
    (hpw : priorityWord w rest = false) :
    priorityStep (ws ++ (w ++ rest)) = none := by
  cases hres : priorityStep (ws ++ (w ++ rest)) with
  | none => rfl
  | some p =>
    obtain ⟨c, r⟩ := p
    exfalso
    obtain ⟨ws', rest2, wse, he, hne', hws', hup, hwsoe⟩ :=
      priorityStep_some_decomp hres
    obtain ⟨hr1, hr2, hr3⟩ := wsoe_some_decomp hwsoe
    have hsplit1 : ws = ws' ∧ w ++ rest = '[' :: '#' :: c :: ']' :: rest2 :=
      append_split_unique (p := isSpaceTab) he hws hws'
        (by
          intro x hx
          cases w with
          | nil => exact absurd rfl hwne
          | cons a w' =>
            simp only [List.cons_append, List.head?_cons,
              Option.some.injEq] at hx
            subst hx
            by_contra hcon
            simp only [Bool.not_eq_false] at hcon
            have := hw a (by simp)
            rw [isSpaceTab_rustWS hcon] at this
            simp at this)
        (by
          intro x hx
          simp only [List.head?_cons, Option.some.injEq] at hx
          subst hx; decide)
    have hsplit2 : w = ['[', '#', c, ']'] ∧ rest = rest2 :=
      append_split_unique (p := fun x => !isRustWhitespace x) hsplit1.2
        (by intro x hx; simp [hw x hx])
        (by
          intro x hx
          simp only [List.mem_cons, List.mem_singleton] at hx
          rcases hx with rfl | rfl | rfl | rfl | hx
          · decide
          · decide
          · simp [not_ws_of_upper hup]
          · decide
          · simp at hx)
        (by intro x hx; simp [hrest x hx])
        (by
          intro x hx
          rw [hr1] at hx
          cases wse with
          | nil => exact absurd rfl hr2
          | cons a wse' =>
            simp only [List.cons_append, List.head?_cons,
              Option.some.injEq] at hx
            subst hx
            simp [hr3 a (by simp)])
    rw [hsplit2.1, hsplit2.2] at hpw
    have hred : priorityWord ['[', '#', c, ']'] rest2 =
        (isAsciiUppercase c && (white_spaces_or_eol rest2).isSome) := rfl
    rw [hred, hup, hwsoe] at hpw
    simp at hpw

/-- Trimming the line content of `ws ++ w ++ rest` keeps the word `w` as a
prefix: the result is `w` followed by the trimmed rest of the line. -/
lemma trim_line_word {ws w : List Char} (rest : List Char)
    (hws : ∀ c ∈ ws, isSpaceTab c = true) (hwne : w ≠ [])
    (hw : ∀ c ∈ w, isRustWhitespace c = false) :
    trim (lineSplit (ws ++ (w ++ rest))).1 =
      w ++ trimEnd (lineSplit rest).1 := by
  have hnl : ∀ c ∈ ws ++ w, c ≠ '\n' ∧ c ≠ '\r' := by
    intro c hc
    rcases List.mem_append.1 hc with h | h
    · have := hws c h
      simp only [isSpaceTab, Bool.or_eq_true, decide_eq_true_iff] at this
      rcases this with rfl | rfl <;> exact ⟨by decide, by decide⟩
    · have := hw c h
      constructor
      · intro hh; subst hh; simp [isRustWhitespace] at this
      · intro hh; subst hh; simp [isRustWhitespace] at this
  have h1 : lineSplit (ws ++ (w ++ rest)) =
      ((ws ++ w) ++ (lineSplit rest).1, (lineSplit rest).2) := by
    rw [← List.append_assoc]
    exact lineSplit_append rest hnl
  rw [h1]
  show trim ((ws ++ w) ++ (lineSplit rest).1) = _
  rw [List.append_assoc]
  unfold trim
  have h2 : trimStart (ws ++ (w ++ (lineSplit rest).1)) =
      w ++ (lineSplit rest).1 := by
    unfold trimStart
    rw [dropWhile_append_of_all _ (fun c hc => isSpaceTab_rustWS (hws c hc))]
    exact dropWhile_eq_self_of_head (by
      intro c hc
      cases w with
      | nil => exact absurd rfl hwne
      | cons a w' =>
        simp only [List.cons_append, List.head?_cons, Option.some.injEq] at hc
        subst hc
        exact hw a (by simp))
  rw [h2]
  exact trimEnd_append_nonws _ hw

/-- The tag-extraction split keeps a leading whitespace-free word as a
prefix of `raw`. -/
lemma rawTagsSplit_starts {isAlnum : Char → Bool} {w : List Char}
    (s : List Char) (hwne : w ≠ [])
    (hw : ∀ c ∈ w, isRustWhitespace c = false) :
    ∃ t, (rawTagsSplit isAlnum (w ++ s)).1 = w ++ t := by
  cases hm : memrchr2SpaceTab (w ++ s) with
  | none => exact ⟨s, by rw [rawTagsSplit_nosp hm]⟩
  | some i =>
    obtain ⟨a, c, b, he, hl, hc, _⟩ := memrchr_some_decomp hm
    have hwi : w.length ≤ i := by
      by_contra hlt
      push_neg at hlt
      have hdrop : (w ++ s).drop i = c :: b := by
        rw [he, ← hl, List.drop_left]
      have hdrop2 : (w ++ s).drop i = w.drop i ++ s := by
        rw [List.drop_append_of_le_length (le_of_lt hlt)]
      have hne : w.drop i ≠ [] := by
        intro h0
        have := congrArg List.length h0
        simp only [List.length_drop, List.length_nil] at this
        omega
      have hhead : (w.drop i ++ s).head? = (w.drop i).head? := by
        cases hd : w.drop i with
        | nil => exact absurd hd hne
        | cons x xs => simp [hd]
      have : (w.drop i).head? = some c := by
        rw [← hhead, ← hdrop2, hdrop]
        rfl
      have hcmem : c ∈ w := by
        have := List.mem_of_mem_head? this
        exact List.mem_of_mem_drop this
      have := hw c hcmem
      rw [isSpaceTab_rustWS hc] at this
      simp at this
    by_cases htag : is_tag_line isAlnum ((w ++ s).drop (i + 1)) = true
    · refine ⟨trimEnd (s.take (i - w.length)), ?_⟩
      rw [rawTagsSplit_tag hm htag]
      show trim ((w ++ s).take i) = _
      rw [List.take_append_eq_append_take, List.take_of_length_le hwi]
      exact trim_append_nonws _ hwne hw
    · refine ⟨s, ?_⟩
      rw [rawTagsSplit_noqual hm (by simpa using htag)]

/-- If the line following the priority attempt starts (after horizontal
whitespace) with a whitespace-free word, that word is a prefix of `raw`. -/
lemma raw_starts_word {cfg : ParseConfig} {input ws w rest : List Char}
    (isAlnum : Char → Bool)
    (hin : titleIn3 cfg input = ws ++ (w ++ rest))
    (hws : ∀ c ∈ ws, isSpaceTab c = true) (hwne : w ≠ [])
    (hw : ∀ c ∈ w, isRustWhitespace c = false) :
    ∃ s, (rawTagsSplit isAlnum (titleTail cfg input)).1 = w ++ s := by
  have htail : titleTail cfg input = w ++ trimEnd (lineSplit rest).1 := by
    unfold titleTail
    rw [hin]
    exact trim_line_word rest hws hwne hw
  rw [htail]
  exact rawTagsSplit_starts _ hwne hw

/-! ## Claim C2 -/

/-- Counterexample to C2 as stated: in `* [#A] x` with empty keyword lists
the word after the markers is `[#A]`, which is in neither list, and
`keyword` is indeed `None` — but the word does **not** appear as a prefix
of `raw`: the priority-cookie attempt consumes it, leaving `raw = "x"`. -/
theorem title_c2_counterexample :
    (parse_title plNone frNone Char.isAlphanum cfgEmpty
        "* [#A] x".toList).2.1.keyword = none ∧
      (parse_title plNone frNone Char.isAlphanum cfgEmpty
        "* [#A] x".toList).2.1.raw = "x".toList ∧
      ∀ s : List Char, "x".toList ≠ "[#A]".toList ++ s := by
  refine ⟨rfl, rfl, ?_⟩
  intro s h
  simpa using congrArg List.length h

/-- C2 (amended): with the headline decomposed as markers, mandatory
whitespace, a whitespace-delimited word `w` and the rest, the word is
accepted as `keyword` iff it equals an entry of the open or closed list
(first conjunct); and when it is in neither list, `keyword` is `None` and —
unless the word together with what follows forms a consumable priority
cookie `[#C]` (uppercase `C` followed by whitespace or a line ending),
which the priority step then swallows — the word appears verbatim as a
prefix of `raw` (second conjunct). -/
theorem title_c2 (pl : List Char → Option (List Char))
    (fr : List Char → Option (List Char × (List Char × List Char)))
    (isAlnum : Char → Bool) (cfg : ParseConfig)
    (stars ws w rest : List Char)
    (hstars : ∀ c ∈ stars, c = '*')
    (hws : ∀ c ∈ ws, isSpaceTab c = true) (hwsne : ws ≠ [])
    (hwne : w ≠ []) (hw : ∀ c ∈ w, isRustWhitespace c = false)
    (hrest : ∀ c, rest.head? = some c → isRustWhitespace c = true) :
    ((parse_title pl fr isAlnum cfg
        (stars ++ (ws ++ (w ++ rest)))).2.1.keyword = some w ↔
      (cfg.todo_keywords.1.contains w ||
        cfg.todo_keywords.2.contains w) = true) ∧
    ((cfg.todo_keywords.1.contains w ||
        cfg.todo_keywords.2.contains w) = false →
      priorityWord w rest = false →
      (parse_title pl fr isAlnum cfg
          (stars ++ (ws ++ (w ++ rest)))).2.1.keyword = none ∧
        ∃ s, (parse_title pl fr isAlnum cfg
          (stars ++ (ws ++ (w ++ rest)))).2.1.raw = w ++ s) := by
  have hin1 : titleIn1 (stars ++ (ws ++ (w ++ rest))) = ws ++ (w ++ rest) := by
    unfold titleIn1
    rw [dropWhile_append_of_all _ (by
      intro c hc
      simp [hstars c hc])]
    exact dropWhile_eq_self_of_head (by
      intro c hc
      cases ws with
      | nil => exact absurd rfl hwsne
      | cons a ws' =>
        simp only [List.cons_append, List.head?_cons, Option.some.injEq] at hc
        subst hc
        have := hws a (by simp)
        simp only [isSpaceTab, Bool.or_eq_true, decide_eq_true_iff] at this
        rcases this with rfl | rfl <;> simp)
  constructor
  · rw [parse_title_keyword, hin1]
    unfold keywordResult
    by_cases hmem : (cfg.todo_keywords.1.contains w ||
        cfg.todo_keywords.2.contains w) = true
    · rw [show ws ++ (w ++ rest) = ws ++ w ++ rest from by
        rw [List.append_assoc]]
      rw [keywordStep_word_mem hws hwsne hwne hw hrest hmem]
      exact ⟨fun _ => hmem, fun _ => rfl⟩
    · have hmem' : (cfg.todo_keywords.1.contains w ||
          cfg.todo_keywords.2.contains w) = false := by
        simpa using hmem
      rw [show ws ++ (w ++ rest) = ws ++ w ++ rest from by
        rw [List.append_assoc]]
      rw [keywordStep_word_notmem hws hwne hw hrest hmem']
      exact ⟨fun h0 => Option.noConfusion h0,
        fun h0 => absurd (hmem'.symm.trans h0) (by simp)⟩
  · intro hmem hpw
    have hkw : keywordStep cfg (ws ++ (w ++ rest)) = none := by
      rw [show ws ++ (w ++ rest) = ws ++ w ++ rest from by
        rw [List.append_assoc]]
      exact keywordStep_word_notmem hws hwne hw hrest hmem
    have hin2 : titleIn2 cfg (stars ++ (ws ++ (w ++ rest))) =
        ws ++ (w ++ rest) := by
      unfold titleIn2 keywordResult
      rw [hin1, hkw]
    have hpr : priorityStep (ws ++ (w ++ rest)) = none :=
      priorityStep_word_none hws hwne hw hrest hpw
    have hin3 : titleIn3 cfg (stars ++ (ws ++ (w ++ rest))) =
        ws ++ (w ++ rest) := by
      unfold titleIn3 priorityResult
      rw [hin2, hpr]
    constructor
    · rw [parse_title_keyword, hin1]
      unfold keywordResult
      rw [hkw]
    · rw [parse_title_raw]
      exact raw_starts_word isAlnum hin3 hws hwne hw

/-- Closed witness for C2 (amended) on `* FOO x` with empty keyword lists:
`FOO` is not accepted as keyword and is a prefix of `raw`. -/
theorem title_c2_witness :
    ((parse_title plNone frNone Char.isAlphanum cfgEmpty
      ("*".toList ++ (" ".toList ++ ("FOO".toList ++ " x".toList)))).2.1.keyword
        = none) ∧
      ∃ s, ((parse_title plNone frNone Char.isAlphanum cfgEmpty
        ("*".toList ++ (" ".toList ++ ("FOO".toList ++ " x".toList)))).2.1.raw
          = "FOO".toList ++ s) :=
  (title_c2 plNone frNone Char.isAlphanum cfgEmpty "*".toList " ".toList
      "FOO".toList " x".toList (by decide) (by decide) (by decide)
      (by decide) (by decide)
      (by intro c hc; simp at hc; subst hc; decide)).2 (by decide) (by decide)

/-! ## Claim C3 -/

/-- C3: `priority` is `Some C` exactly when the input remaining after the
keyword attempt is a whitespace run, then `[#`, one uppercase ASCII letter
`C`, `]`, then required whitespace-or-line-ending (first conjunct); and on
a failed cookie attempt — the post-keyword input carrying a
whitespace-delimited word (such as the malformed `[#1]`) that is not a
consumable cookie — the parse backtracks: `priority` is `None` and the
word appears verbatim as a prefix of `raw` (second conjunct). -/
theorem title_c3 (pl : List Char → Option (List Char))
    (fr : List Char → Option (List Char × (List Char × List Char)))
    (isAlnum : Char → Bool) (cfg : ParseConfig) (input : List Char) :
    (∀ c, (parse_title pl fr isAlnum cfg input).2.1.priority = some c ↔
      ∃ ws rest2 wse r, titleIn2 cfg input =
          ws ++ '[' :: '#' :: c :: ']' :: rest2 ∧ ws ≠ [] ∧
        (∀ x ∈ ws, isSpaceTab x = true) ∧ isAsciiUppercase c = true ∧
        white_spaces_or_eol rest2 = some (wse, r)) ∧
    (∀ ws w rest, titleIn2 cfg input = ws ++ (w ++ rest) →
      (∀ c ∈ ws, isSpaceTab c = true) → w ≠ [] →
      (∀ c ∈ w, isRustWhitespace c = false) →
      (∀ c, rest.head? = some c → isRustWhitespace c = true) →
      priorityWord w rest = false →
      (parse_title pl fr isAlnum cfg input).2.1.priority = none ∧
        ∃ s, (parse_title pl fr isAlnum cfg input).2.1.raw = w ++ s) := by
  constructor
  · intro c
    rw [parse_title_priority]
    unfold priorityResult
    constructor
    · intro h
      cases hps : priorityStep (titleIn2 cfg input) with
      | none => rw [hps] at h; exact absurd h (by simp)
      | some p =>
        obtain ⟨c0, r0⟩ := p
        rw [hps] at h
        have hc0 : c0 = c := by
          simpa using h
        subst hc0
        obtain ⟨ws, rest2, wse, he, hne, hws, hup, hwsoe⟩ :=
          priorityStep_some_decomp hps
        exact ⟨ws, rest2, wse, r0, he, hne, hws, hup, hwsoe⟩
    · rintro ⟨ws, rest2, wse, r, he, hne, hws, hup, hwsoe⟩
      rw [he, priorityStep_construct hne hws hup hwsoe]
  · intro ws w rest hin2 hws hwne hw hrest hpw
    have hpr : priorityStep (ws ++ (w ++ rest)) = none :=
      priorityStep_word_none hws hwne hw hrest hpw
    have hin3 : titleIn3 cfg input = ws ++ (w ++ rest) := by
      unfold titleIn3 priorityResult
      rw [hin2, hpr]
    constructor
    · rw [parse_title_priority]
      unfold priorityResult
      rw [hin2, hpr]
    · rw [parse_title_raw]
      exact raw_starts_word isAlnum hin3 hws hwne hw

/-- Closed witness for C3: on `* [#1] x` (digit, not uppercase) the cookie
attempt fails, `priority` is `None`, and `[#1]` is a prefix of `raw`. -/
theorem title_c3_witness :
    ((parse_title plNone frNone Char.isAlphanum cfgEmpty
        "* [#1] x".toList).2.1.priority = none) ∧
      ∃ s, ((parse_title plNone frNone Char.isAlphanum cfgEmpty
        "* [#1] x".toList).2.1.raw = "[#1]".toList ++ s) :=
  (title_c3 plNone frNone Char.isAlphanum cfgEmpty "* [#1] x".toList).2
    " ".toList "[#1]".toList " x".toList (by decide) (by decide) (by decide)
    (by decide)
    (by intro c hc; simp at hc; subst hc; decide) (by decide)

set_option maxHeartbeats 1600000 in
/-- The rest of the headline line decomposes as leading whitespace, `raw`,
separating whitespace, the tag group text, trailing whitespace, and the
line terminator with the remainder. -/
lemma tail_decomp (isAlnum : Char → Bool) (cfg : ParseConfig)
    (input : List Char) :
    ∃ w4 w5 tagStr w6 rest,
      titleIn3 cfg input =
        w4 ++ (rawTagsSplit isAlnum (titleTail cfg input)).1 ++ w5 ++ tagStr
          ++ w6 ++ rest ∧
      (∀ c ∈ w4 ++ w5 ++ w6, isRustWhitespace c = true) ∧
      ((tagStr = [] ∧ (rawTagsSplit isAlnum (titleTail cfg input)).2 = []) ∨
        (w5 ≠ [] ∧ is_tag_line isAlnum tagStr = true ∧
          (rawTagsSplit isAlnum (titleTail cfg input)).2 = tagStr)) ∧
      (rest = [] ∨ (∃ r, rest = '\n' :: r) ∨
        (∃ r, rest = '\r' :: '\n' :: r)) := by
  obtain ⟨term, e4, hterm, htermnil⟩ := lineSplit_decomp (titleIn3 cfg input)
  have e5a : (lineSplit (titleIn3 cfg input)).1 =
      (lineSplit (titleIn3 cfg input)).1.takeWhile isRustWhitespace ++
        trimStart (lineSplit (titleIn3 cfg input)).1 :=
    (trimStart_decomp _).1
  have hw4 := (trimStart_decomp (lineSplit (titleIn3 cfg input)).1).2
  obtain ⟨tws, e5b, htws⟩ :=
    trimEnd_decomp (trimStart (lineSplit (titleIn3 cfg input)).1)
  have e5b' : trimStart (lineSplit (titleIn3 cfg input)).1 =
      titleTail cfg input ++ tws := e5b
  have hrest : (term ++ (lineSplit (titleIn3 cfg input)).2 = [] ∨
      (∃ r, term ++ (lineSplit (titleIn3 cfg input)).2 = '\n' :: r) ∨
      (∃ r, term ++ (lineSplit (titleIn3 cfg input)).2
        = '\r' :: '\n' :: r)) := by
    rcases hterm with rfl | rfl | rfl
    · left; rw [htermnil rfl]; rfl
    · right; left; exact ⟨_, rfl⟩
    · right; right; exact ⟨_, rfl⟩
  cases hm : memrchr2SpaceTab (titleTail cfg input) with
  | none =>
    refine ⟨(lineSplit (titleIn3 cfg input)).1.takeWhile isRustWhitespace,
      [], [], tws, term ++ (lineSplit (titleIn3 cfg input)).2, ?_, ?_,
      Or.inl ⟨rfl, by rw [rawTagsSplit_nosp hm]⟩, hrest⟩
    · rw [rawTagsSplit_nosp hm]
      conv_lhs => rw [e4, e5a, e5b']
      simp [List.append_assoc]
    · intro c hc
      rcases List.mem_append.1 hc with h | h
      · rcases List.mem_append.1 h with h' | h'
        · exact hw4 c h'
        · simp at h'
      · exact htws c h
  | some i =>
    by_cases htag :
        is_tag_line isAlnum ((titleTail cfg input).drop (i + 1)) = true
    · obtain ⟨a, c, b, he, hl, hc, _⟩ := memrchr_some_decomp hm
      have htake : (titleTail cfg input).take i = a := by
        rw [he, ← hl, List.take_left]
      have hdrop : (titleTail cfg input).drop (i + 1) = b := by
        rw [he, show a ++ c :: b = (a ++ [c]) ++ b from by simp, ← hl]
        rw [show a.length + 1 = (a ++ [c]).length from by simp]
        exact List.drop_left _ _
      have hane : a ≠ [] := by
        intro h0
        subst h0
        simp only [List.nil_append] at he
        have := head_trim (l := (lineSplit (titleIn3 cfg input)).1)
          c (by
            show (titleTail cfg input).head? = some c
            rw [he]; rfl)
        rw [isSpaceTab_rustWS hc] at this
        simp at this
      have hahead : ∀ x, a.head? = some x → isRustWhitespace x = false := by
        intro x hx
        apply head_trim (l := (lineSplit (titleIn3 cfg input)).1)
        show (titleTail cfg input).head? = some x
        rw [he]
        cases a with
        | nil => exact absurd rfl hane
        | cons y ys => simpa using hx
      have htrima : trimStart a = a :=
        trimStart_eq_self_of_head hahead
      obtain ⟨hws', ea, hhws'⟩ := trimEnd_decomp a
      have hraw : (rawTagsSplit isAlnum (titleTail cfg input)).1 =
          trimEnd a := by
        rw [rawTagsSplit_tag hm htag, htake]
        show trim a = _
        unfold trim
        rw [htrima]
      refine ⟨(lineSplit (titleIn3 cfg input)).1.takeWhile isRustWhitespace,
        hws' ++ [c], b, tws, term ++ (lineSplit (titleIn3 cfg input)).2,
        ?_, ?_, Or.inr ⟨by simp, by rwa [← hdrop],
          by rw [rawTagsSplit_tag hm htag, hdrop]⟩, hrest⟩
      · rw [hraw]
        conv_lhs => rw [e4, e5a, e5b', he]
        conv_lhs => rw [ea]
        simp [List.append_assoc]
      · intro x hx
        rcases List.mem_append.1 hx with h | h
        · rcases List.mem_append.1 h with h' | h'
          · exact hw4 x h'
          · rcases List.mem_append.1 h' with h'' | h''
            · exact hhws' x h''
            · simp only [List.mem_singleton] at h''
              subst h''
              exact isSpaceTab_rustWS hc
        · exact htws x h
    · have htag' : is_tag_line isAlnum
          ((titleTail cfg input).drop (i + 1)) = false := by simpa using htag
      refine ⟨(lineSplit (titleIn3 cfg input)).1.takeWhile isRustWhitespace,
        [], [], tws, term ++ (lineSplit (titleIn3 cfg input)).2, ?_, ?_,
        Or.inl ⟨rfl, by rw [rawTagsSplit_noqual hm htag']⟩, hrest⟩
      · rw [rawTagsSplit_noqual hm htag']
        conv_lhs => rw [e4, e5a, e5b']
        simp [List.append_assoc]
      · intro x hx
        rcases List.mem_append.1 hx with h | h
        · rcases List.mem_append.1 h with h' | h'
          · exact hw4 x h'
          · simp at h'
        · exact htws x h

/-! ## Claim C1 -/

set_option maxHeartbeats 1600000 in
/-- C1: the headline decomposes exactly into the parsed pieces.  The input
is the leading markers (`level` many `'*'`), then — when a keyword was
parsed — separating whitespace and the keyword, then — when a priority was
parsed — separating whitespace, the cookie `[#C]` and its required
trailing whitespace (or line ending), then whitespace, `raw`, whitespace,
the tag-group text (when tags were parsed; `tags` is that text split on
`':'` with empty segments dropped), trailing whitespace, and finally the
line terminator with the rest of the buffer.  So `raw` occupies a segment
disjoint from the parsed keyword, cookie and tag group — none of the
parsed pieces remains inside `raw` — and concatenating the pieces with the
original separating whitespace reconstructs the consumed title line
exactly. -/
theorem title_c1 (pl : List Char → Option (List Char))
    (fr : List Char → Option (List Char × (List Char × List Char)))
    (isAlnum : Char → Bool) (cfg : ParseConfig) (input : List Char) :
    ∃ w1 w2 w3 w4 w5 tagStr w6 rest,
      input =
        List.replicate (parse_title pl fr isAlnum cfg input).2.1.level '*'
          ++ (match (parse_title pl fr isAlnum cfg input).2.1.keyword with
              | some k => w1 ++ k
              | none => [])
          ++ (match (parse_title pl fr isAlnum cfg input).2.1.priority with
              | some c => w2 ++ '[' :: '#' :: c :: ']' :: w3
              | none => [])
          ++ w4 ++ (parse_title pl fr isAlnum cfg input).2.1.raw
          ++ w5 ++ tagStr ++ w6 ++ rest ∧
      (∀ c ∈ w1 ++ w2 ++ w3 ++ w4 ++ w5 ++ w6, isRustWhitespace c = true) ∧
      ((parse_title pl fr isAlnum cfg input).2.1.keyword ≠ none →
        w1 ≠ []) ∧
      ((parse_title pl fr isAlnum cfg input).2.1.priority ≠ none →
        w2 ≠ [] ∧ w3 ≠ []) ∧
      ((tagStr = [] ∧ (parse_title pl fr isAlnum cfg input).2.1.tags = []) ∨
        (w5 ≠ [] ∧ is_tag_line isAlnum tagStr = true ∧
          (parse_title pl fr isAlnum cfg input).2.1.tags =
            (splitOnColon tagStr).filter (fun s => !s.isEmpty))) ∧
      (rest = [] ∨ (∃ r, rest = '\n' :: r) ∨
        (∃ r, rest = '\r' :: '\n' :: r)) := by
  have eA : input = input.takeWhile (fun c => c = '*') ++ titleIn1 input :=
    (List.takeWhile_append_dropWhile _ input).symm
  have hlevel :
      List.replicate (parse_title pl fr isAlnum cfg input).2.1.level '*' =
        input.takeWhile (fun c => c = '*') := by
    rw [parse_title_level]
    exact (List.eq_replicate_of_mem (fun b hb => by
      simpa using mem_takeWhile hb)).symm
  have hB : ∃ w1, titleIn1 input =
      (match (parse_title pl fr isAlnum cfg input).2.1.keyword with
        | some k => w1 ++ k
        | none => []) ++ titleIn2 cfg input ∧
      (∀ c ∈ w1, isRustWhitespace c = true) ∧
      ((parse_title pl fr isAlnum cfg input).2.1.keyword ≠ none →
        w1 ≠ []) := by
    cases hkw : keywordStep cfg (titleIn1 input) with
    | some p =>
      obtain ⟨k, r2⟩ := p
      have hkwEq : (parse_title pl fr isAlnum cfg input).2.1.keyword
          = some k := by
        rw [parse_title_keyword]
        unfold keywordResult
        rw [hkw]
      have hin2 : titleIn2 cfg input = r2 := by
        unfold titleIn2 keywordResult
        rw [hkw]
      obtain ⟨ws1, eB, hws1ne, hws1, _, _, _⟩ := keywordStep_some_decomp hkw
      refine ⟨ws1, ?_, fun c hc => isSpaceTab_rustWS (hws1 c hc),
        fun _ => hws1ne⟩
      rw [hkwEq]
      show titleIn1 input = (ws1 ++ k) ++ titleIn2 cfg input
      rw [hin2]
      exact eB
    | none =>
      have hkwEq : (parse_title pl fr isAlnum cfg input).2.1.keyword
          = none := by
        rw [parse_title_keyword]
        unfold keywordResult
        rw [hkw]
      have hin2 : titleIn2 cfg input = titleIn1 input := by
        unfold titleIn2 keywordResult
        rw [hkw]
      refine ⟨[], ?_, by simp, fun h => absurd hkwEq h⟩
      rw [hkwEq, hin2]
      rfl
  have hC : ∃ w2 w3, titleIn2 cfg input =
      (match (parse_title pl fr isAlnum cfg input).2.1.priority with
        | some c => w2 ++ '[' :: '#' :: c :: ']' :: w3
        | none => []) ++ titleIn3 cfg input ∧
      (∀ c ∈ w2 ++ w3, isRustWhitespace c = true) ∧
      ((parse_title pl fr isAlnum cfg input).2.1.priority ≠ none →
        w2 ≠ [] ∧ w3 ≠ []) := by
    cases hpr : priorityStep (titleIn2 cfg input) with
    | some p =>
      obtain ⟨c, r3⟩ := p
      have hprEq : (parse_title pl fr isAlnum cfg input).2.1.priority
          = some c := by
        rw [parse_title_priority]
        unfold priorityResult
        rw [hpr]
      have hin3 : titleIn3 cfg input = r3 := by
        unfold titleIn3 priorityResult
        rw [hpr]
      obtain ⟨ws2, rest2, wse, he, hne2, hws2, _, hwsoe⟩ :=
        priorityStep_some_decomp hpr
      obtain ⟨hr1, hr2, hr3⟩ := wsoe_some_decomp hwsoe
      refine ⟨ws2, wse, ?_, ?_, fun _ => ⟨hne2, hr2⟩⟩
      · rw [hprEq]
        show titleIn2 cfg input =
          (ws2 ++ '[' :: '#' :: c :: ']' :: wse) ++ titleIn3 cfg input
        rw [hin3, he, hr1]
        simp
      · intro x hx
        rcases List.mem_append.1 hx with h | h
        · exact isSpaceTab_rustWS (hws2 x h)
        · exact hr3 x h
    | none =>
      have hprEq : (parse_title pl fr isAlnum cfg input).2.1.priority
          = none := by
        rw [parse_title_priority]
        unfold priorityResult
        rw [hpr]
      have hin3 : titleIn3 cfg input = titleIn2 cfg input := by
        unfold titleIn3 priorityResult
        rw [hpr]
      refine ⟨[], [], ?_, by simp, fun h => absurd hprEq h⟩
      rw [hprEq, hin3]
      rfl
  obtain ⟨w1, eB, h1, h1ne⟩ := hB
  obtain ⟨w2, w3, eC, h23, h23ne⟩ := hC
  obtain ⟨w4, w5, tagStr, w6, rest, eD, h456, htags, hrest⟩ :=
    tail_decomp isAlnum cfg input
  refine ⟨w1, w2, w3, w4, w5, tagStr, w6, rest, ?_, ?_, h1ne, h23ne, ?_,
    hrest⟩
  · rw [hlevel, parse_title_raw]
    conv_lhs => rw [eA, eB, eC, eD]
    simp [List.append_assoc]
  · intro x hx
    simp only [List.append_assoc, List.mem_append] at hx
    rcases hx with h | h | h | h | h | h
    · exact h1 x h
    · exact h23 x (List.mem_append.2 (Or.inl h))
    · exact h23 x (List.mem_append.2 (Or.inr h))
    · exact h456 x (by simp [h])
    · exact h456 x (by simp [h])
    · exact h456 x (by simp [h])
  · rcases htags with ⟨ht1, ht2⟩ | ⟨ht1, ht2, ht3⟩
    · left
      refine ⟨ht1, ?_⟩
      rw [parse_title_tags, ht2]
      rfl
    · right
      refine ⟨ht1, ht2, ?_⟩
      rw [parse_title_tags, ht3]

/-! ## Embedding validation: the unit tests of title.rs and objects/mod.rs

These replay the source's own `#[test]` cases against the embedding (with
never-matching planning/drawer collaborators, as none of these inputs has
planning or drawer lines, and a `TODO`/`DONE` configuration as in
`DEFAULT_CONFIG`). -/

theorem title_test_full :
    parse_title plNone frNone Char.isAlphanum cfgTD
        "**** DONE [#A] COMMENT Title :tag:a2%:".toList =
      ([], (⟨4, some 'A', ["tag".toList, "a2%".toList], some "DONE".toList,
        "COMMENT Title".toList, none, [], 0⟩, "COMMENT Title".toList)) := by
  rfl

theorem title_test_bad_cookie :
    parse_title plNone frNone Char.isAlphanum cfgTD
        "**** DONE [#1] COMMENT Title".toList =
      ([], (⟨4, none, [], some "DONE".toList, "[#1] COMMENT Title".toList,
        none, [], 0⟩, "[#1] COMMENT Title".toList)) := by
  rfl

theorem title_test_bad_keyword :
    parse_title plNone frNone Char.isAlphanum cfgTD
        "**** T0DO [#A] COMMENT Title".toList =
      ([], (⟨4, none, [], none, "T0DO [#A] COMMENT Title".toList,
        none, [], 0⟩, "T0DO [#A] COMMENT Title".toList)) := by
  rfl

theorem title_test_no_tag :
    parse_title plNone frNone Char.isAlphanum cfgTD
        "**** Title tag:a2%:".toList =
      ([], (⟨4, none, [], none, "Title tag:a2%:".toList,
        none, [], 0⟩, "Title tag:a2%:".toList)) := by
  rfl

/-- Collaborators reproducing the real sub-parsers' answers on the two
scanner unit tests. -/
def coTest : Collaborators :=
  { snippet := fun _ => none, macros := fun _ => none,
    radioTarget := fun _ => none, target := fun _ => none,
    fnRef := fun _ => none, link := fun _ => none, cookie := fun _ => none,
    inlineCall := fun _ => none, inlineSrc := fun _ => none,
    emphasis := fun s m =>
      if s = "*bold*".toList && m = '*' then some 5
      else if s = "=verbatim=".toList && m = '=' then some 9
      else none }

theorem next_2_test_bold :
    next_2 coTest "*bold*".toList = (Object.bold 5, 1, none) := by rfl

theorem next_2_test_verbatim :
    next_2 coTest "Normal =verbatim=".toList =
      (Object.text "Normal ".toList, 7,
        some (Object.verbatim "verbatim".toList, 10)) := by rfl

end Orgize
